import Mathlib

/-!
# Verification of the tagged-type registry and codec (`a9-std`)

Shallow embedding of the core library: a `Struct` base class whose values
are serialized to JSON with a reserved identifier key `"_"` holding a
registered UUID, and deserialized by `JSON.parse` with a reviver that
re-attaches the registered prototype and deletes the reserved key.

The embedding models:
* the Serializable Value universe (`Serde`),
* the generic JSON tree (`Json`) together with a textual printer and a
  parser for the interchange format (the platform `JSON.stringify` /
  `JSON.parse` text layer, modelled from the JSON grammar),
* the bidirectional registry (`Registry`, the `ID_TO_PROTO` /
  `PROTO_TO_ID` maps) with `Struct.register`,
* encode (`encodeSerde`, the `JSON.stringify` walk calling `toJSON`)
  and decode (`Struct.parse`, the reviver walk).

Prototypes (type descriptors) are identified by their object identity,
modelled as a natural number.
-/

set_option maxRecDepth 4000

abbrev UUID := String
abbrev Proto := Nat

/-- A JS `Map` / `WeakMap` modelled as an association list.  `mapSet`
replaces the value in place when the key is present (JS `Map.set`
keeps the original insertion position on overwrite) and appends
otherwise. -/
def mapSet {κ α : Type} [DecidableEq κ] (k : κ) (v : α) : List (κ × α) → List (κ × α)
  | [] => [(k, v)]
  | (k', v') :: rest => if k' = k then (k, v) :: rest else (k', v') :: mapSet k v rest

/-- JS `Map.get`, `none` when absent. -/
def mapGet {κ α : Type} [DecidableEq κ] (k : κ) : List (κ × α) → Option α
  | [] => none
  | (k', v') :: rest => if k' = k then some v' else mapGet k rest

/-- Successively assign each binding of `fs` into the object `acc`
(models building a JS object literal / repeated property assignment). -/
def mapSetAll {κ α : Type} [DecidableEq κ] (acc fs : List (κ × α)) : List (κ × α) :=
  fs.foldl (fun a kv => mapSet kv.1 kv.2 a) acc

/-- The generic JSON tree produced by the textual parser: the
absence-marker / boolean / number / text / sequence / keyed-collection
grammar.  Numbers are carried as exact decimals `m * 10 ^ (-e)`
(mantissa and fractional-digit count), an abstraction of the
platform's binary floating point that the codec never inspects. -/
inductive Json where
  | null : Json
  | bool (b : Bool) : Json
  | num (m : Int) (e : Nat) : Json
  | str (s : String) : Json
  | arr (elems : List Json) : Json
  | obj (fields : List (String × Json)) : Json
deriving Repr

/-- The Serializable Value universe (`type Serde` in the source):
primitives, sequences, keyed collections, and tagged values.  A tagged
value (`Struct` instance) is its prototype identity plus its own
enumerable fields. -/
inductive Serde where
  | null : Serde
  | bool (b : Bool) : Serde
  | num (m : Int) (e : Nat) : Serde
  | str (s : String) : Serde
  | arr (elems : List Serde) : Serde
  | obj (fields : List (String × Serde)) : Serde
  | struct (proto : Proto) (fields : List (String × Serde)) : Serde
deriving Repr

/-- The process-wide registry: `Struct.ID_TO_PROTO` (a `Map` from UUID
to prototype) and `Struct.PROTO_TO_ID` (a `WeakMap` from prototype to
UUID). -/
structure Registry where
  ID_TO_PROTO : List (UUID × Proto)
  PROTO_TO_ID : List (Proto × UUID)
deriving Repr

/-- The empty registry (process start). -/
def Registry.empty : Registry := ⟨[], []⟩

/-- Model of `Struct.register(Ctor, id)`: sets both directions of the registry. -/
def Struct.register (r : Registry) (ctorProto : Proto) (id : UUID) : Registry :=
  ⟨mapSet id ctorProto r.ID_TO_PROTO, mapSet ctorProto id r.PROTO_TO_ID⟩

/-- Decode-side registry lookup, `lookupDescriptor(identifier)`. -/
def lookupDescriptor (r : Registry) (id : UUID) : Option Proto :=
  mapGet id r.ID_TO_PROTO

/-- Encode-side registry lookup, `lookupIdentifier(descriptor)`. -/
def lookupIdentifier (r : Registry) (p : Proto) : Option UUID :=
  mapGet p r.PROTO_TO_ID

/-- The `get _()` accessor on `Struct`: reads the identifier registered
for the value's prototype; `none` models the thrown
`Unregistered type/prototype` error, and non-`Struct` values do not
carry the accessor. -/
def getUnderscore (r : Registry) : Serde → Option UUID
  | .struct p _ => lookupIdentifier r p
  | _ => none

/-- The single encode-time error (`throw new Error("Unregistered type/prototype")`
inside `toJSON`, propagated by `JSON.stringify`). -/
inductive EncodeError where
  | unregisteredType : EncodeError
deriving Repr, DecidableEq

/-- The single decode-time error: the `SyntaxError` thrown by
`JSON.parse` on text that is not syntactically valid JSON. -/
inductive DecodeError where
  | malformedInput : DecodeError
deriving Repr, DecidableEq

mutual

/-- Model of `JSON.stringify` on a Serializable value: primitives and containers
pass through; a `Struct` instance is replaced by its `toJSON()` output
`{ _: id, ...ownFields }`, with the lookup failure raising the encode
error.  Keyed documents are kept here in binding-insertion order (the
reserved key first); the platform serializer actually emits an
object's array-index-keyed properties ahead of its other keys, a
reordering of the same bindings that decode does not observe (field
order is not significant to the reviver).  The enumeration-faithful
field sequence of a tagged document is modelled by `Struct.toJSON`. -/
def encodeSerde (r : Registry) : Serde → Except EncodeError Json
  | .null => .ok .null
  | .bool b => .ok (.bool b)
  | .num m e => .ok (.num m e)
  | .str s => .ok (.str s)
  | .arr xs => (encodeL r xs).map Json.arr
  | .obj fs => (encodeF r fs).map Json.obj
  | .struct p fs =>
    match lookupIdentifier r p with
    | none => .error .unregisteredType
    | some id => (encodeF r fs).map (fun efs => Json.obj (mapSetAll [("_", Json.str id)] efs))

def encodeL (r : Registry) : List Serde → Except EncodeError (List Json)
  | [] => .ok []
  | x :: xs => do
    let j ← encodeSerde r x
    let js ← encodeL r xs
    pure (j :: js)

def encodeF (r : Registry) : List (String × Serde) → Except EncodeError (List (String × Json))
  | [] => .ok []
  | (k, v) :: fs => do
    let j ← encodeSerde r v
    let js ← encodeF r fs
    pure ((k, j) :: js)

end

mutual

/-- The reviver walk of `Struct.parse`: bottom-up over the parsed tree.
A keyed-collection node whose (already revived) reserved field `_` is a
string is looked up in `ID_TO_PROTO`; on a hit the node becomes a live
value of that prototype with the reserved key deleted
(`Object.setPrototypeOf` + `delete v._`), otherwise it stays a plain
keyed collection.  Keyed collections produced by `JSON.parse` have
pairwise-distinct keys, so deleting the property is dropping its unique
binding. -/
def revive (r : Registry) : Json → Serde
  | .null => .null
  | .bool b => .bool b
  | .num m e => .num m e
  | .str s => .str s
  | .arr js => .arr (reviveL r js)
  | .obj fs =>
    let fs' := reviveF r fs
    match mapGet "_" fs' with
    | some (.str id) =>
      match lookupDescriptor r id with
      | some proto => .struct proto (fs'.filter (fun kv => kv.1 ≠ "_"))
      | none => .obj fs'
    | _ => .obj fs'

def reviveL (r : Registry) : List Json → List Serde
  | [] => []
  | j :: js => revive r j :: reviveL r js

def reviveF (r : Registry) : List (String × Json) → List (String × Serde)
  | [] => []
  | (k, v) :: fs => (k, revive r v) :: reviveF r fs

end

/-! ## The textual interchange layer

Modelled from the spec: the underlying textual format is standard JSON
(`JSON.stringify` without indentation for printing, `JSON.parse` for
reading); this platform code is not part of the repository, so it is
embedded here from the JSON grammar the spec names. -/

def quoteC : Char := Char.ofNat 34
def bslashC : Char := Char.ofNat 92
def lbraceC : Char := Char.ofNat 123
def rbraceC : Char := Char.ofNat 125
def spaceC : Char := Char.ofNat 32
def tabC : Char := Char.ofNat 9
def nlC : Char := Char.ofNat 10
def crC : Char := Char.ofNat 13
def bsC : Char := Char.ofNat 8
def ffC : Char := Char.ofNat 12
def replC : Char := Char.ofNat 0xFFFD

def digitChar (n : Nat) : Char := Char.ofNat (48 + n)

def hexDigitChar (n : Nat) : Char :=
  if n < 10 then Char.ofNat (48 + n) else Char.ofNat (87 + n)

/-- JSON string escaping as performed by `JSON.stringify`: quote,
backslash, the five short control escapes, `\u00XX` for the remaining
control characters, everything else (including non-ASCII) verbatim. -/
def escapeChar (c : Char) : List Char :=
  if c = quoteC then [bslashC, quoteC]
  else if c = bslashC then [bslashC, bslashC]
  else if c = bsC then [bslashC, 'b']
  else if c = tabC then [bslashC, 't']
  else if c = nlC then [bslashC, 'n']
  else if c = ffC then [bslashC, 'f']
  else if c = crC then [bslashC, 'r']
  else if c.toNat < 32 then
    [bslashC, 'u', '0', '0', hexDigitChar (c.toNat / 16), hexDigitChar (c.toNat % 16)]
  else [c]

def printStr (s : List Char) : List Char :=
  quoteC :: s.flatMap escapeChar ++ [quoteC]

/-- Decimal digit characters of `n`, most significant first. -/
def natDigitChars (n : Nat) : List Char :=
  if n = 0 then ['0'] else ((Nat.digits 10 n).map digitChar).reverse

/-- Unsigned decimal text of `n * 10 ^ (-e)`: integer digits (padded
with leading zeros so at least one digit precedes the point) and `e`
fractional digits after a point when `e > 0`. -/
def printNumBody (n e : Nat) : List Char :=
  let ds0 := natDigitChars n
  let ds := List.replicate (e + 1 - ds0.length) '0' ++ ds0
  if e = 0 then ds
  else ds.take (ds.length - e) ++ '.' :: ds.drop (ds.length - e)

/-- Print the decimal `m * 10 ^ (-e)` the way `JSON.stringify` prints a
number: optional sign, integer digits, and `e` fractional digits after
a point when `e > 0` (never exponent notation for these magnitudes). -/
def printNum (m : Int) (e : Nat) : List Char :=
  (if m < 0 then ['-'] else []) ++ printNumBody m.natAbs e

mutual

/-- Text output of `JSON.stringify` for a JSON tree (no whitespace). -/
def printV : Json → List Char
  | .null => 'n' :: ['u', 'l', 'l']
  | .bool true => 't' :: ['r', 'u', 'e']
  | .bool false => 'f' :: ['a', 'l', 's', 'e']
  | .num m e => printNum m e
  | .str s => printStr s.data
  | .arr [] => ['[', ']']
  | .arr (x :: xs) => '[' :: (printV x ++ printElemsTail xs ++ [']'])
  | .obj [] => [lbraceC, rbraceC]
  | .obj ((k, v) :: fs) =>
    lbraceC :: (printStr k.data ++ ':' :: printV v ++ printFieldsTail fs ++ [rbraceC])

def printElemsTail : List Json → List Char
  | [] => []
  | x :: xs => ',' :: (printV x ++ printElemsTail xs)

def printFieldsTail : List (String × Json) → List Char
  | [] => []
  | (k, v) :: fs => ',' :: (printStr k.data ++ ':' :: printV v ++ printFieldsTail fs)

end

/-- Full printed text of a JSON tree. -/
def printJson (j : Json) : String := String.mk (printV j)

mutual

/-- Parser-fuel weight of a JSON tree. -/
def jsize : Json → Nat
  | .null => 1
  | .bool _ => 1
  | .num _ _ => 1
  | .str _ => 1
  | .arr js => 1 + jsizeL js
  | .obj fs => 1 + jsizeF fs

def jsizeL : List Json → Nat
  | [] => 0
  | x :: xs => 1 + jsize x + jsizeL xs

def jsizeF : List (String × Json) → Nat
  | [] => 0
  | (_, v) :: fs => 1 + jsize v + jsizeF fs

end

mutual

/-- Well-formedness of a JSON tree as a value of the platform's object
model: every keyed collection has pairwise-distinct keys (JS objects
cannot carry a key twice). -/
def jwf : Json → Bool
  | .null => true
  | .bool _ => true
  | .num _ _ => true
  | .str _ => true
  | .arr js => jwfL js
  | .obj fs => nodupKeysJ fs && jwfF fs

def jwfL : List Json → Bool
  | [] => true
  | x :: xs => jwf x && jwfL xs

def jwfF : List (String × Json) → Bool
  | [] => true
  | (_, v) :: fs => jwf v && jwfF fs

def nodupKeysJ : List (String × Json) → Bool
  | [] => true
  | (k, _) :: fs => !(fs.map Prod.fst).contains k && nodupKeysJ fs

end

def isWsC (c : Char) : Bool :=
  c = spaceC || c = tabC || c = nlC || c = crC

/-- Skip insignificant JSON whitespace. -/
def skipWs : List Char → List Char
  | [] => []
  | c :: cs => if isWsC c then skipWs cs else c :: cs

def isDigitC (c : Char) : Bool := 48 ≤ c.toNat && c.toNat ≤ 57

def hexVal (c : Char) : Option Nat :=
  if 48 ≤ c.toNat ∧ c.toNat ≤ 57 then some (c.toNat - 48)
  else if 97 ≤ c.toNat ∧ c.toNat ≤ 102 then some (c.toNat - 87)
  else if 65 ≤ c.toNat ∧ c.toNat ≤ 70 then some (c.toNat - 55)
  else none

def hex4 (h1 h2 h3 h4 : Char) : Option Nat := do
  let a ← hexVal h1
  let b ← hexVal h2
  let c ← hexVal h3
  let d ← hexVal h4
  pure (a * 4096 + b * 256 + c * 16 + d)

def consFst (c : Char) : List Char × List Char → List Char × List Char :=
  fun p => (c :: p.1, p.2)

/-- Body of a JSON string literal, after the opening quote.  `\uXXXX`
escapes naming a surrogate half are combined into the encoded scalar
when a matching pair is present and replaced by U+FFFD otherwise (the
platform string type admits lone surrogate code units, the embedding's
does not). -/
def parseStrBody : Nat → List Char → Option (List Char × List Char)
  | 0, _ => none
  | _ + 1, [] => none
  | fuel + 1, c :: cs =>
    if c = quoteC then some ([], cs)
    else if c = bslashC then
      match cs with
      | [] => none
      | e :: cs2 =>
        if e = quoteC then (parseStrBody fuel cs2).map (consFst quoteC)
        else if e = bslashC then (parseStrBody fuel cs2).map (consFst bslashC)
        else if e = '/' then (parseStrBody fuel cs2).map (consFst '/')
        else if e = 'b' then (parseStrBody fuel cs2).map (consFst bsC)
        else if e = 't' then (parseStrBody fuel cs2).map (consFst tabC)
        else if e = 'n' then (parseStrBody fuel cs2).map (consFst nlC)
        else if e = 'f' then (parseStrBody fuel cs2).map (consFst ffC)
        else if e = 'r' then (parseStrBody fuel cs2).map (consFst crC)
        else if e = 'u' then
          match cs2 with
          | h1 :: h2 :: h3 :: h4 :: cs3 =>
            match hex4 h1 h2 h3 h4 with
            | none => none
            | some n =>
              if 0xD800 ≤ n ∧ n ≤ 0xDBFF then
                match cs3 with
                | b1 :: u1 :: x1 :: x2 :: x3 :: x4 :: cs4 =>
                  if b1 = bslashC ∧ u1 = 'u' then
                    match hex4 x1 x2 x3 x4 with
                    | none => none
                    | some n2 =>
                      if 0xDC00 ≤ n2 ∧ n2 ≤ 0xDFFF then
                        (parseStrBody fuel cs4).map
                          (consFst (Char.ofNat (0x10000 + (n - 0xD800) * 1024 + (n2 - 0xDC00))))
                      else (parseStrBody fuel cs3).map (consFst replC)
                  else (parseStrBody fuel cs3).map (consFst replC)
                | _ => (parseStrBody fuel cs3).map (consFst replC)
              else if 0xDC00 ≤ n ∧ n ≤ 0xDFFF then (parseStrBody fuel cs3).map (consFst replC)
              else (parseStrBody fuel cs3).map (consFst (Char.ofNat n))
          | _ => none
        else none
    else if 32 ≤ c.toNat then (parseStrBody fuel cs).map (consFst c)
    else none

/-- Read a nonempty run of decimal digits: value, digit count, rest. -/
def parseDigits (cs : List Char) : Option (Nat × Nat × List Char) :=
  let ds := cs.takeWhile isDigitC
  if ds.isEmpty then none
  else some (ds.foldl (fun a c => 10 * a + (c.toNat - 48)) 0, ds.length, cs.dropWhile isDigitC)

def headIs (cs : List Char) (c : Char) : Bool :=
  match cs with
  | [] => false
  | x :: _ => x = c

/-- Optional JSON fraction part: `.` followed by at least one digit. -/
def parseFrac (cs : List Char) : Option (Nat × Nat × List Char) :=
  if headIs cs '.' then
    match parseDigits cs.tail with
    | some (fv, flen, r) => some (fv, flen, r)
    | none => none
  else some (0, 0, cs)

/-- Optional JSON exponent part: `e`/`E`, optional sign, digits. -/
def parseExpPart (cs : List Char) : Option (Option (Bool × Nat) × List Char) :=
  if headIs cs 'e' ∨ headIs cs 'E' then
    let t := cs.tail
    let eneg := headIs t '-'
    let t2 := if headIs t '-' ∨ headIs t '+' then t.tail else t
    match parseDigits t2 with
    | some (ev, _, r) => some (some (eneg, ev), r)
    | none => none
  else some (none, cs)

/-- Fold a parsed exponent into the exact decimal `m0 * 10 ^ (-flen)`,
abstracting the platform's float rounding. -/
def applyExp (m0 flen : Nat) : Option (Bool × Nat) → Nat × Nat
  | none => (m0, flen)
  | some (eneg, ev) =>
    if eneg then (m0, flen + ev)
    else if flen ≤ ev then (m0 * 10 ^ (ev - flen), 0)
    else (m0, flen - ev)

/-- JSON number grammar: sign, integer part (no redundant leading
zero), optional fraction, optional exponent. -/
def parseNumber (cs : List Char) : Option ((Int × Nat) × List Char) :=
  let neg := headIs cs '-'
  let cs1 := if neg then cs.tail else cs
  match parseDigits cs1 with
  | none => none
  | some (iv, ilen, cs2) =>
    if 1 < ilen ∧ cs1.head? = some '0' then none
    else
      match parseFrac cs2 with
      | none => none
      | some (fv, flen, cs3) =>
        match parseExpPart cs3 with
        | none => none
        | some (ex, cs4) =>
          let me := applyExp (iv * 10 ^ flen + fv) flen ex
          some ((if neg then -(me.1 : Int) else (me.1 : Int), me.2), cs4)

/-- Literal keyword prefix test. -/
def litPrefix : List Char → List Char → Bool
  | [], _ => true
  | _ :: _, [] => false
  | p :: ps, c :: cs => p = c && litPrefix ps cs

/-- Build a JS object from parsed key/value pairs in order: a repeated
key overwrites the value at its original position (`JSON.parse`
assigns properties left to right). -/
def mkObjList (fs : List (String × Json)) : List (String × Json) :=
  mapSetAll [] fs

mutual

/-- One JSON value, by recursive descent with structural fuel. -/
def parseValue : Nat → List Char → Option (Json × List Char)
  | 0, _ => none
  | fuel + 1, cs0 =>
    let cs := skipWs cs0
    if litPrefix ['n', 'u', 'l', 'l'] cs then some (.null, cs.drop 4)
    else if litPrefix ['t', 'r', 'u', 'e'] cs then some (.bool true, cs.drop 4)
    else if litPrefix ['f', 'a', 'l', 's', 'e'] cs then some (.bool false, cs.drop 5)
    else if headIs cs quoteC then
      (parseStrBody cs.length cs.tail).map (fun p => (.str (String.mk p.1), p.2))
    else if headIs cs '[' then
      let cs1 := skipWs cs.tail
      if headIs cs1 ']' then some (.arr [], cs1.tail)
      else
        match parseValue fuel cs1 with
        | none => none
        | some (j, r1) =>
          match parseArrTail fuel r1 with
          | none => none
          | some (js, r2) => some (.arr (j :: js), r2)
    else if headIs cs lbraceC then
      let cs1 := skipWs cs.tail
      if headIs cs1 rbraceC then some (.obj [], cs1.tail)
      else if headIs cs1 quoteC then
        match parseStrBody cs1.length cs1.tail with
        | none => none
        | some (k, r1) =>
          let r2 := skipWs r1
          if headIs r2 ':' then
            match parseValue fuel r2.tail with
            | none => none
            | some (v, r3) =>
              match parseObjTail fuel r3 with
              | none => none
              | some (fs, r4) => some (.obj (mkObjList ((String.mk k, v) :: fs)), r4)
          else none
      else none
    else
      (parseNumber cs).map (fun p => (.num p.1.1 p.1.2, p.2))

/-- Elements of an array after the first: `,` separated, `]` ends. -/
def parseArrTail : Nat → List Char → Option (List Json × List Char)
  | 0, _ => none
  | fuel + 1, cs0 =>
    let cs := skipWs cs0
    if headIs cs ']' then some ([], cs.tail)
    else if headIs cs ',' then
      match parseValue fuel cs.tail with
      | none => none
      | some (j, r1) =>
        match parseArrTail fuel r1 with
        | none => none
        | some (js, r2) => some (j :: js, r2)
    else none

/-- Members of an object after the first: `,` separated, the closing
brace ends. -/
def parseObjTail : Nat → List Char → Option (List (String × Json) × List Char)
  | 0, _ => none
  | fuel + 1, cs0 =>
    let cs := skipWs cs0
    if headIs cs rbraceC then some ([], cs.tail)
    else if headIs cs ',' then
      let cs1 := skipWs cs.tail
      if headIs cs1 quoteC then
        match parseStrBody cs1.length cs1.tail with
        | none => none
        | some (k, r1) =>
          let r2 := skipWs r1
          if headIs r2 ':' then
            match parseValue fuel r2.tail with
            | none => none
            | some (v, r3) =>
              match parseObjTail fuel r3 with
              | none => none
              | some (fs, r4) => some ((String.mk k, v) :: fs, r4)
          else none
      else none
    else none

end

/-- Syntactic layer of `JSON.parse`: one value, optionally surrounded by
whitespace, consuming the entire input; `none` models the thrown
`SyntaxError`. -/
def parseJsonText (s : String) : Option Json :=
  match parseValue (s.data.length + 1) s.data with
  | some (j, rest) => if skipWs rest = [] then some j else none
  | none => none

/-- Model of `Struct.parse(json)`: `JSON.parse` with the prototype-restoring
reviver.  All-or-nothing: a syntax error aborts the call, otherwise the
revived root is returned (the reviver itself cannot fail). -/
def Struct.parse (r : Registry) (s : String) : Except DecodeError Serde :=
  match parseJsonText s with
  | none => .error .malformedInput
  | some j => .ok (revive r j)

/-- Model of `JSON.stringify(value)` on a Serializable value: the encode entry
point of the codec. -/
def Struct.stringify (r : Registry) (v : Serde) : Except EncodeError String :=
  (encodeSerde r v).map printJson

/-- Head class of a printed number. -/
def numStartC (c : Char) : Bool := c = '-' || isDigitC c

/-- Big-endian decimal value of a run of digit characters. -/
def valFold (ds : List Char) : Nat :=
  ds.foldl (fun a c => 10 * a + (c.toNat - 48)) 0

/-- The characters allowed to follow a printed JSON value in its
context: nothing (end of input), a separator, or a closing bracket. -/
def delimOk : List Char → Prop
  | [] => True
  | c :: _ => c = ',' ∨ c = ']' ∨ c = rbraceC

def headNotDigit : List Char → Prop
  | [] => True
  | c :: _ => isDigitC c = false

/-- The padded digit run used by `printNumBody`. -/
def padDigits (n e : Nat) : List Char :=
  List.replicate (e + 1 - (natDigitChars n).length) '0' ++ natDigitChars n

/-- Pairwise-distinct keys (a JS object cannot carry a key twice). -/
def nodupKeysS : List (String × Serde) → Bool
  | [] => true
  | (k, _) :: fs => !((fs.map Prod.fst).contains k) && nodupKeysS fs

mutual

/-- The Serializable Value universe restriction of the spec: keyed
collections (both plain ones and the own fields of tagged values) have
pairwise-distinct keys and never themselves carry the reserved key
`_` (no "tagged document impostors"; a `Struct` instance cannot have
an own `_` property, the prototype accessor shadows it). -/
def swf : Serde → Bool
  | .null => true
  | .bool _ => true
  | .num _ _ => true
  | .str _ => true
  | .arr xs => swfL xs
  | .obj fs => !((fs.map Prod.fst).contains "_") && (nodupKeysS fs && swfF fs)
  | .struct _ fs => !((fs.map Prod.fst).contains "_") && (nodupKeysS fs && swfF fs)

def swfL : List Serde → Bool
  | [] => true
  | x :: xs => swf x && swfL xs

def swfF : List (String × Serde) → Bool
  | [] => true
  | (_, v) :: fs => swf v && swfF fs

end

mutual

/-- Every tagged value inside `v` has its prototype coherently
registered: `PROTO_TO_ID` yields an identifier that `ID_TO_PROTO` maps
back to the same prototype. -/
def regOk (r : Registry) : Serde → Bool
  | .null => true
  | .bool _ => true
  | .num _ _ => true
  | .str _ => true
  | .arr xs => regOkL r xs
  | .obj fs => regOkF r fs
  | .struct p fs =>
    (match lookupIdentifier r p with
     | some id => lookupDescriptor r id == some p
     | none => false) && regOkF r fs

def regOkL (r : Registry) : List Serde → Bool
  | [] => true
  | x :: xs => regOk r x && regOkL r xs

def regOkF (r : Registry) : List (String × Serde) → Bool
  | [] => true
  | (_, v) :: fs => regOk r v && regOkF r fs

end

mutual

/-- Every tagged value inside `v` has an identifier in `PROTO_TO_ID`
(the encode-side requirement only). -/
def protosReg (r : Registry) : Serde → Bool
  | .null => true
  | .bool _ => true
  | .num _ _ => true
  | .str _ => true
  | .arr xs => protosRegL r xs
  | .obj fs => protosRegF r fs
  | .struct p fs => (lookupIdentifier r p).isSome && protosRegF r fs

def protosRegL (r : Registry) : List Serde → Bool
  | [] => true
  | x :: xs => protosReg r x && protosRegL r xs

def protosRegF (r : Registry) : List (String × Serde) → Bool
  | [] => true
  | (_, v) :: fs => protosReg r v && protosRegF r fs

end

mutual

def ssize : Serde → Nat
  | .null => 1
  | .bool _ => 1
  | .num _ _ => 1
  | .str _ => 1
  | .arr xs => 1 + ssizeL xs
  | .obj fs => 1 + ssizeF fs
  | .struct _ fs => 1 + ssizeF fs

def ssizeL : List Serde → Nat
  | [] => 0
  | x :: xs => 1 + ssize x + ssizeL xs

def ssizeF : List (String × Serde) → Nat
  | [] => 0
  | (_, v) :: fs => 1 + ssize v + ssizeF fs

end

mutual

/-- A parsed JSON tree read back as a plain Serializable value (no
hydration anywhere): what decode returns when no registered identifier
occurs. -/
def Serde.ofJson : Json → Serde
  | .null => .null
  | .bool b => .bool b
  | .num m e => .num m e
  | .str s => .str s
  | .arr js => .arr (Serde.ofJsonL js)
  | .obj fs => .obj (Serde.ofJsonF fs)

def Serde.ofJsonL : List Json → List Serde
  | [] => []
  | j :: js => Serde.ofJson j :: Serde.ofJsonL js

def Serde.ofJsonF : List (String × Json) → List (String × Serde)
  | [] => []
  | (k, v) :: fs => (k, Serde.ofJson v) :: Serde.ofJsonF fs

end

mutual

/-- No keyed-collection node anywhere in the tree carries a reserved
`_` field holding a string identifier present in the registry. -/
def untagged (r : Registry) : Json → Bool
  | .null => true
  | .bool _ => true
  | .num _ _ => true
  | .str _ => true
  | .arr js => untaggedL r js
  | .obj fs =>
    (match mapGet "_" fs with
     | some (.str id) => (lookupDescriptor r id).isNone
     | _ => true) && untaggedF r fs

def untaggedL (r : Registry) : List Json → Bool
  | [] => true
  | j :: js => untagged r j && untaggedL r js

def untaggedF (r : Registry) : List (String × Json) → Bool
  | [] => true
  | (_, v) :: fs => untagged r v && untaggedF r fs

end

/-- Canonical array-index key per the platform's object model: a
nonempty run of decimal digits with no redundant leading zero whose
value is below `2^32 - 1`.  Own properties with such keys enumerate
before all other string keys, in ascending numeric order. -/
def isArrayIdx (s : String) : Bool :=
  match s.data with
  | [] => false
  | c :: t =>
    (c :: t).all isDigitC && (decide (c ≠ '0') || t.isEmpty) &&
      decide (valFold (c :: t) < 4294967295)

/-- Numeric value of an array-index key. -/
def arrayIdxVal (s : String) : Nat := valFold s.data

/-- Stable sorted insertion by array-index value. -/
def insIdx {α : Type} (kv : String × α) : List (String × α) → List (String × α)
  | [] => [kv]
  | kv2 :: t =>
    if arrayIdxVal kv2.1 ≤ arrayIdxVal kv.1 then kv2 :: insIdx kv t else kv :: kv2 :: t

/-- Stable insertion sort by array-index value. -/
def sortIdx {α : Type} : List (String × α) → List (String × α)
  | [] => []
  | kv :: t => insIdx kv (sortIdx t)

/-- Own-property enumeration order of a JS object whose bindings were
inserted in list order: array-index keys in ascending numeric order
first, then the remaining string keys in insertion order.  This is
the order `Object.keys` and `JSON.stringify` traverse. -/
def jsOrder {α : Type} (l : List (String × α)) : List (String × α) :=
  sortIdx (l.filter (fun kv => isArrayIdx kv.1)) ++
    l.filter (fun kv => !isArrayIdx kv.1)

/-- Faithful field sequence of the document `JSON.stringify` emits for
a tagged value: `toJSON()` builds `{ _: id, ...ownFields }` (reserved
binding inserted first, then the own fields, values already encoded
recursively), and the serializer then walks that object's own
properties in enumeration order — so array-index-keyed fields come
out first, ahead of the reserved key. -/
def Struct.toJSON (r : Registry) (p : Proto) (efs : List (String × Json)) :
    Except EncodeError (List (String × Json)) :=
  match lookupIdentifier r p with
  | none => .error .unregisteredType
  | some id => .ok (jsOrder (mapSetAll [("_", Json.str id)] efs))

/-! ## Association-map lemmas -/

theorem mapGet_set_self {κ α : Type} [DecidableEq κ] (k : κ) (v : α) (l : List (κ × α)) :
    mapGet k (mapSet k v l) = some v := by
  induction l with
  | nil => simp [mapSet, mapGet]
  | cons hd tl ih =>
    obtain ⟨k', v'⟩ := hd
    by_cases h : k' = k <;> simp [mapSet, mapGet, h, ih]

theorem mapGet_set_ne {κ α : Type} [DecidableEq κ] (k k' : κ) (v : α) (l : List (κ × α))
    (h : k' ≠ k) : mapGet k' (mapSet k v l) = mapGet k' l := by
  induction l with
  | nil => simp [mapSet, mapGet, Ne.symm h]
  | cons hd tl ih =>
    obtain ⟨k0, v0⟩ := hd
    by_cases h0 : k0 = k
    · subst h0
      simp [mapSet, mapGet, Ne.symm h]
    · by_cases h1 : k0 = k' <;> simp [mapSet, mapGet, h0, h1, h, ih]

theorem mapSet_idem {κ α : Type} [DecidableEq κ] (k : κ) (v : α) (l : List (κ × α)) :
    mapSet k v (mapSet k v l) = mapSet k v l := by
  induction l with
  | nil => simp [mapSet]
  | cons hd tl ih =>
    obtain ⟨k0, v0⟩ := hd
    by_cases h0 : k0 = k <;> simp [mapSet, h0, ih]

theorem mapSet_append_of_not_mem {κ α : Type} [DecidableEq κ] (k : κ) (v : α)
    (l : List (κ × α)) (h : k ∉ l.map Prod.fst) : mapSet k v l = l ++ [(k, v)] := by
  induction l with
  | nil => simp [mapSet]
  | cons hd tl ih =>
    obtain ⟨k0, v0⟩ := hd
    simp only [List.map_cons, List.mem_cons] at h
    push_neg at h
    simp [mapSet, Ne.symm h.1, ih h.2]

theorem mapGet_eq_none_of_not_mem {κ α : Type} [DecidableEq κ] (k : κ) (l : List (κ × α))
    (h : k ∉ l.map Prod.fst) : mapGet k l = none := by
  induction l with
  | nil => simp [mapGet]
  | cons hd tl ih =>
    obtain ⟨k0, v0⟩ := hd
    simp only [List.map_cons, List.mem_cons] at h
    push_neg at h
    simp [mapGet, Ne.symm h.1, ih h.2]

theorem mkObjList_eq_self (fs : List (String × Json)) (h : nodupKeysJ fs = true) :
    mkObjList fs = fs := by
  suffices H : ∀ (acc : List (String × Json)),
      (∀ kv ∈ fs, kv.1 ∉ acc.map Prod.fst) → nodupKeysJ fs = true →
      mapSetAll acc fs = acc ++ fs by
    simpa using H [] (by simp) h
  clear h
  induction fs with
  | nil => intro acc _ _; simp [mapSetAll]
  | cons hd tl ih =>
    intro acc hacc hnd
    obtain ⟨k, v⟩ := hd
    simp only [nodupKeysJ, Bool.and_eq_true] at hnd
    have hk : k ∉ acc.map Prod.fst := hacc (k, v) (by simp)
    have step : mapSetAll acc ((k, v) :: tl) = mapSetAll (acc ++ [(k, v)]) tl := by
      simp [mapSetAll, mapSet_append_of_not_mem k v acc hk]
    rw [step, ih (acc ++ [(k, v)]) ?_ hnd.2]
    · simp
    · intro kv hmem
      have hknotin : k ∉ tl.map Prod.fst := by simpa using hnd.1
      simp only [List.map_append, List.mem_append]
      push_neg
      refine ⟨fun h1 => hacc kv (by simp [hmem]) h1, ?_⟩
      simp only [List.map_cons, List.map_nil, List.mem_singleton]
      intro h2
      exact hknotin (h2 ▸ List.mem_map_of_mem Prod.fst hmem)

/-! ## Character and digit lemmas -/

theorem char_ne_of_toNat_ne {a b : Char} (h : a.toNat ≠ b.toNat) : a ≠ b :=
  fun e => h (by rw [e])

theorem skipWs_cons {c : Char} {cs : List Char} (h : isWsC c = false) :
    skipWs (c :: cs) = c :: cs := by
  simp [skipWs, h]

theorem digitChar_toNat {d : Nat} (h : d < 10) : (digitChar d).toNat = 48 + d := by
  interval_cases d <;> decide

theorem isDigitC_digitChar {d : Nat} (h : d < 10) : isDigitC (digitChar d) = true := by
  simp only [isDigitC, digitChar_toNat h, Bool.and_eq_true, decide_eq_true_eq]
  omega

theorem hexVal_hexDigitChar {k : Nat} (h : k < 16) : hexVal (hexDigitChar k) = some k := by
  interval_cases k <;> decide


theorem foldl_digit_acc (ds : List Char) (a : Nat) :
    ds.foldl (fun a c => 10 * a + (c.toNat - 48)) a = a * 10 ^ ds.length + valFold ds := by
  induction ds generalizing a with
  | nil => simp [valFold]
  | cons c t ih =>
    simp only [List.foldl_cons, valFold, List.length_cons]
    rw [ih, ih (10 * 0 + (c.toNat - 48))]
    ring

theorem valFold_append (a b : List Char) :
    valFold (a ++ b) = valFold a * 10 ^ b.length + valFold b := by
  unfold valFold
  rw [List.foldl_append, foldl_digit_acc]
  rfl

theorem valFold_replicate_zero (k : Nat) :
    valFold (List.replicate k '0') = 0 := by
  induction k with
  | zero => simp [valFold]
  | succ n ih =>
    have : List.replicate (n + 1) '0' = List.replicate n '0' ++ ['0'] := by
      rw [List.replicate_succ']
    rw [this, valFold_append, ih]
    decide

theorem valFold_natDigitChars (n : Nat) : valFold (natDigitChars n) = n := by
  unfold natDigitChars
  by_cases h : n = 0
  · subst h; decide
  · simp only [h, if_false]
    have key : ∀ L : List Nat, (∀ d ∈ L, d < 10) →
        valFold ((L.map digitChar).reverse) = Nat.ofDigits 10 L := by
      intro L
      induction L with
      | nil => intro _; simp [valFold, Nat.ofDigits_nil]
      | cons d T ih =>
        intro hall
        have hd : d < 10 := hall d (by simp)
        simp only [List.map_cons, List.reverse_cons, valFold_append]
        rw [ih (fun x hx => hall x (by simp [hx]))]
        have : valFold [digitChar d] = d := by
          simp [valFold, digitChar_toNat hd]
        rw [this, Nat.ofDigits_cons]
        simp
        ring
    rw [key _ (fun d hd => Nat.digits_lt_base (by norm_num) hd)]
    exact_mod_cast Nat.ofDigits_digits 10 n

theorem natDigitChars_all_digit (n : Nat) :
    ∀ c ∈ natDigitChars n, isDigitC c = true := by
  unfold natDigitChars
  by_cases h : n = 0
  · subst h; intro c hc; simp at hc; subst hc; decide
  · simp only [h, if_false]
    intro c hc
    rw [List.mem_reverse] at hc
    obtain ⟨d, hd, rfl⟩ := List.mem_map.mp hc
    exact isDigitC_digitChar (Nat.digits_lt_base (by norm_num) hd)

theorem natDigitChars_length_pos (n : Nat) : 0 < (natDigitChars n).length := by
  unfold natDigitChars
  by_cases h : n = 0
  · simp [h]
  · simp only [h, if_false, List.length_reverse, List.length_map]
    exact List.length_pos.mpr (Nat.digits_ne_nil_iff_ne_zero.mpr h)

theorem natDigitChars_head_ne_zero {n : Nat} (h : n ≠ 0) :
    ∃ c t, natDigitChars n = c :: t ∧ c ≠ '0' ∧ isDigitC c = true := by
  have hnil : Nat.digits 10 n ≠ [] := Nat.digits_ne_nil_iff_ne_zero.mpr h
  unfold natDigitChars
  simp only [h, if_false]
  obtain ⟨L, d, hLd⟩ := (List.eq_nil_or_concat (Nat.digits 10 n)).resolve_left hnil
  rw [hLd]
  refine ⟨digitChar d, (L.map digitChar).reverse, ?_, ?_, ?_⟩
  · simp
  · have hd10 : d < 10 := Nat.digits_lt_base (by norm_num) (by rw [hLd]; simp)
    have hdne : d ≠ 0 := by
      have hgl := Nat.getLast_digit_ne_zero 10 h
      have h2 : (Nat.digits 10 n).getLast? = some ((Nat.digits 10 n).getLast hnil) :=
        List.getLast?_eq_getLast _ hnil
      have h1 : (Nat.digits 10 n).getLast? = some d := by
        rw [hLd, List.concat_eq_append]
        exact List.getLast?_concat _
      rw [h1] at h2
      rw [Option.some_inj.mp h2]
      exact hgl
    apply char_ne_of_toNat_ne
    rw [digitChar_toNat hd10]
    have : ('0' : Char).toNat = 48 := by decide
    omega
  · exact isDigitC_digitChar (Nat.digits_lt_base (by norm_num) (by rw [hLd]; simp))

/-! ## Number-parsing round trip -/


theorem headIs_cons (c : Char) (t : List Char) (x : Char) :
    headIs (c :: t) x = decide (c = x) := rfl

theorem headIs_nil (x : Char) : headIs [] x = false := rfl

theorem headNotDigit_of_delim {rest : List Char} (h : delimOk rest) : headNotDigit rest := by
  cases rest with
  | nil => trivial
  | cons c t =>
    show isDigitC c = false
    rcases h with h | h | h <;> subst h <;> decide

theorem takeWhile_digit_append {ds rest : List Char}
    (h1 : ∀ c ∈ ds, isDigitC c = true) (h2 : headNotDigit rest) :
    (ds ++ rest).takeWhile isDigitC = ds ∧ (ds ++ rest).dropWhile isDigitC = rest := by
  induction ds with
  | nil =>
    cases rest with
    | nil => simp
    | cons c t =>
      have : isDigitC c = false := h2
      simp [List.takeWhile_cons, List.dropWhile_cons, this]
  | cons d t ih =>
    have hd : isDigitC d = true := h1 d (by simp)
    have := ih (fun c hc => h1 c (by simp [hc]))
    simp [List.takeWhile_cons, List.dropWhile_cons, hd, this.1, this.2]

theorem parseDigits_spec {ds rest : List Char} (hne : ds ≠ [])
    (h1 : ∀ c ∈ ds, isDigitC c = true) (h2 : headNotDigit rest) :
    parseDigits (ds ++ rest) = some (valFold ds, ds.length, rest) := by
  obtain ⟨tw, dw⟩ := takeWhile_digit_append h1 h2
  simp only [parseDigits, tw, dw]
  rw [List.isEmpty_eq_false_iff_exists_mem.mpr]
  · rfl
  · cases ds with
    | nil => exact absurd rfl hne
    | cons a t => exact ⟨a, by simp⟩

theorem parseFrac_delim {rest : List Char} (h : delimOk rest) :
    parseFrac rest = some (0, 0, rest) := by
  cases rest with
  | nil => rfl
  | cons c t =>
    have : headIs (c :: t) '.' = false := by
      rw [headIs_cons]
      rcases h with h | h | h <;> subst h <;> decide
    simp [parseFrac, this]

theorem parseExpPart_delim {rest : List Char} (h : delimOk rest) :
    parseExpPart rest = some (none, rest) := by
  cases rest with
  | nil => rfl
  | cons c t =>
    have he : headIs (c :: t) 'e' = false := by
      rw [headIs_cons]
      rcases h with h | h | h <;> subst h <;> decide
    have hE : headIs (c :: t) 'E' = false := by
      rw [headIs_cons]
      rcases h with h | h | h <;> subst h <;> decide
    simp [parseExpPart, he, hE]


theorem padDigits_all_digit (n e : Nat) : ∀ c ∈ padDigits n e, isDigitC c = true := by
  intro c hc
  rcases List.mem_append.mp hc with h | h
  · rw [List.eq_of_mem_replicate h]; decide
  · exact natDigitChars_all_digit n c h

theorem padDigits_length (n e : Nat) :
    (padDigits n e).length = max (e + 1) (natDigitChars n).length := by
  simp only [padDigits, List.length_append, List.length_replicate]
  omega

theorem valFold_padDigits (n e : Nat) : valFold (padDigits n e) = n := by
  have := valFold_append (List.replicate (e + 1 - (natDigitChars n).length) '0') (natDigitChars n)
  simp only [padDigits, this, valFold_replicate_zero, valFold_natDigitChars]
  ring

theorem printNumBody_eq (n e : Nat) : printNumBody n e =
    if e = 0 then padDigits n e
    else (padDigits n e).take ((padDigits n e).length - e) ++
      '.' :: (padDigits n e).drop ((padDigits n e).length - e) := rfl

theorem padDigits_ne_nil (n e : Nat) : padDigits n e ≠ [] := by
  have := padDigits_length n e
  intro h
  rw [h] at this
  simp at this
  omega

theorem printNumBody_head (n e : Nat) :
    ∃ c t, printNumBody n e = c :: t ∧ isDigitC c = true := by
  obtain ⟨c, t, hct⟩ := List.exists_cons_of_ne_nil (padDigits_ne_nil n e)
  have hcd : isDigitC c = true := padDigits_all_digit n e c (by rw [hct]; simp)
  rw [printNumBody_eq]
  by_cases he : e = 0
  · subst he
    exact ⟨c, t, by simp [hct], hcd⟩
  · have hlen : e + 1 ≤ (padDigits n e).length := by
      rw [padDigits_length]; omega
    obtain ⟨k, hk⟩ : ∃ k, (padDigits n e).length - e = k + 1 := ⟨(padDigits n e).length - e - 1, by omega⟩
    refine ⟨c, t.take k ++ '.' :: t.drop k, ?_, hcd⟩
    simp only [he, if_false]
    rw [hk, hct, List.take_succ_cons, List.drop_succ_cons, List.cons_append]

theorem numChain (n e : Nat) (rest : List Char) (hrest : delimOk rest) :
    ∃ iv ilen fracTail fv flen,
      parseDigits (printNumBody n e ++ rest) = some (iv, ilen, fracTail) ∧
      ¬(1 < ilen ∧ (printNumBody n e ++ rest).head? = some '0') ∧
      parseFrac fracTail = some (fv, flen, rest) ∧
      parseExpPart rest = some (none, rest) ∧
      iv * 10 ^ flen + fv = n ∧ flen = e := by
  have hdsd := padDigits_all_digit n e
  have hlen := padDigits_length n e
  have hval := valFold_padDigits n e
  by_cases he : e = 0
  · subst he
    have hds0 : padDigits n 0 = natDigitChars n := by
      have : 0 + 1 - (natDigitChars n).length = 0 := by
        have := natDigitChars_length_pos n
        omega
      simp [padDigits, this]
    have hpb : printNumBody n 0 = padDigits n 0 := by rw [printNumBody_eq]; simp
    refine ⟨valFold (padDigits n 0), (padDigits n 0).length, rest, 0, 0, ?_, ?_,
      parseFrac_delim hrest, parseExpPart_delim hrest, by simpa using hval, rfl⟩
    · rw [hpb]
      exact parseDigits_spec (padDigits_ne_nil n 0) hdsd (headNotDigit_of_delim hrest)
    · rw [hpb]
      by_cases hn : n = 0
      · subst hn
        intro hcon
        have : (padDigits 0 0).length = 1 := by rw [hds0]; rfl
        omega
      · obtain ⟨c, t, hct, hc0, _⟩ := natDigitChars_head_ne_zero hn
        rw [hds0, hct]
        intro hcon
        have := hcon.2
        simp only [List.cons_append, List.head?_cons, Option.some_inj] at this
        exact hc0 this
  · have hsub : e + 1 ≤ (padDigits n e).length := by rw [hlen]; omega
    obtain ⟨k, hk⟩ : ∃ k, (padDigits n e).length - e = k := ⟨_, rfl⟩
    have hk1 : 1 ≤ k := by omega
    have hil : ((padDigits n e).take k).length = k := by
      rw [List.length_take]; omega
    have hfl : ((padDigits n e).drop k).length = e := by
      rw [List.length_drop]; omega
    have hsplit := List.take_append_drop k (padDigits n e)
    have hintd : ∀ c ∈ (padDigits n e).take k, isDigitC c = true :=
      fun c hc => hdsd c (List.take_subset _ _ hc)
    have hfracd : ∀ c ∈ (padDigits n e).drop k, isDigitC c = true :=
      fun c hc => hdsd c (List.drop_subset _ _ hc)
    have hpb : printNumBody n e =
        (padDigits n e).take k ++ '.' :: (padDigits n e).drop k := by
      rw [printNumBody_eq]
      simp [he, hk]
    have hintne : (padDigits n e).take k ≠ [] := by
      intro hcon
      rw [hcon] at hil
      simp at hil
      omega
    have hfracne : (padDigits n e).drop k ≠ [] := by
      intro hcon
      rw [hcon] at hfl
      simp at hfl
      omega
    have h1 : parseDigits (printNumBody n e ++ rest) =
        some (valFold ((padDigits n e).take k), k, '.' :: ((padDigits n e).drop k ++ rest)) := by
      rw [hpb, List.append_assoc, List.cons_append]
      have hnd : headNotDigit ('.' :: ((padDigits n e).drop k ++ rest)) := by
        show isDigitC '.' = false
        decide
      have := @parseDigits_spec ((padDigits n e).take k)
        ('.' :: ((padDigits n e).drop k ++ rest)) hintne hintd hnd
      rw [this, hil]
    have h2 : parseFrac ('.' :: ((padDigits n e).drop k ++ rest)) =
        some (valFold ((padDigits n e).drop k), e, rest) := by
      have hps := @parseDigits_spec ((padDigits n e).drop k) rest
        hfracne hfracd (headNotDigit_of_delim hrest)
      simp only [parseFrac, headIs_cons, decide_True, if_true, List.tail_cons]
      rw [hps, hfl]
    refine ⟨valFold ((padDigits n e).take k), k, '.' :: ((padDigits n e).drop k ++ rest),
      valFold ((padDigits n e).drop k), e, h1, ?_, h2, parseExpPart_delim hrest, ?_, rfl⟩
    · -- no redundant leading zero in the integer part
      by_cases hpad : (natDigitChars n).length ≤ e
      · -- padded: the integer part is the single digit 0
        have : (padDigits n e).length = e + 1 := by rw [hlen]; omega
        intro hcon
        omega
      · -- unpadded: the leading digit of n is not 0
        have hn : n ≠ 0 := by
          intro hn0
          subst hn0
          have : (natDigitChars 0).length = 1 := rfl
          omega
        obtain ⟨c, t, hct, hc0, _⟩ := natDigitChars_head_ne_zero hn
        have hnopad : padDigits n e = natDigitChars n := by
          have : e + 1 - (natDigitChars n).length = 0 := by omega
          simp [padDigits, this]
        intro hcon
        have := hcon.2
        rw [hpb] at this
        obtain ⟨k', hk'⟩ : ∃ k', k = k' + 1 := ⟨k - 1, by omega⟩
        rw [hnopad, hct, hk', List.take_cons] at this
        simp only [List.cons_append, List.head?_cons, Option.some_inj] at this
        exact hc0 this
        omega
    · -- the value recombines to n
      have := valFold_append ((padDigits n e).take k) ((padDigits n e).drop k)
      rw [hsplit, hfl] at this
      rw [← this, hval]

theorem parseNumber_print (m : Int) (e : Nat) (rest : List Char) (hrest : delimOk rest) :
    parseNumber (printNum m e ++ rest) = some ((m, e), rest) := by
  obtain ⟨iv, ilen, fracTail, fv, flen, hPD, hLZ, hPF, hPE, hVal, hFlen⟩ :=
    numChain m.natAbs e rest hrest
  obtain ⟨c, t, hct, hcd⟩ := printNumBody_head m.natAbs e
  have hcneg : headIs (printNumBody m.natAbs e ++ rest) '-' = false := by
    rw [hct, List.cons_append, headIs_cons]
    simp only [decide_eq_false_iff_not]
    apply char_ne_of_toNat_ne
    simp only [isDigitC, Bool.and_eq_true, decide_eq_true_eq] at hcd
    have : ('-').toNat = 45 := by decide
    omega
  by_cases hm : m < 0
  · have hpn : printNum m e ++ rest = '-' :: (printNumBody m.natAbs e ++ rest) := by
      simp [printNum, hm]
    rw [hpn]
    simp only [parseNumber, headIs_cons, List.tail_cons, decide_True, if_true]
    rw [hPD]
    simp only [hLZ, if_false, decide_True, if_true]
    rw [hPF]
    dsimp only
    rw [hPE]
    dsimp only
    simp only [applyExp]
    have : -((iv * 10 ^ flen + fv : Nat) : Int) = m := by omega
    rw [hFlen] at this ⊢
    simp [hVal, this]
    push_cast at this
    linarith
  · have hpn : printNum m e ++ rest = printNumBody m.natAbs e ++ rest := by
      simp [printNum, hm]
    rw [hpn]
    simp only [parseNumber, hcneg, Bool.false_eq_true, if_false]
    rw [hPD]
    simp only [hLZ, if_false]
    rw [hPF]
    dsimp only
    rw [hPE]
    dsimp only
    simp only [applyExp]
    have : ((iv * 10 ^ flen + fv : Nat) : Int) = m := by omega
    rw [hFlen] at this ⊢
    simp [hVal, this]

/-! ## String-escaping round trip -/

theorem parseStrBody_print : ∀ (s : List Char) (fuel : Nat) (rest : List Char),
    s.length < fuel →
    parseStrBody fuel (s.flatMap escapeChar ++ quoteC :: rest) = some (s, rest) := by
  intro s
  induction s with
  | nil =>
    intro fuel rest h
    cases fuel with
    | zero => omega
    | succ f => simp [parseStrBody]
  | cons c t ih =>
    intro fuel rest h
    cases fuel with
    | zero => omega
    | succ f =>
      have ih' := ih f rest (by simp at h; omega)
      rw [List.flatMap_cons, List.append_assoc]
      by_cases h1 : c = quoteC
      · subst h1
        rw [show escapeChar quoteC = [bslashC, quoteC] from by decide]
        simp [parseStrBody, consFst, (by decide : ¬(bslashC = quoteC)), ih']
      · by_cases h2 : c = bslashC
        · subst h2
          rw [show escapeChar bslashC = [bslashC, bslashC] from by decide]
          simp [parseStrBody, consFst, (by decide : ¬(bslashC = quoteC)), ih']
        · by_cases h3 : c = bsC
          · subst h3
            rw [show escapeChar bsC = [bslashC, 'b'] from by decide]
            simp [parseStrBody, consFst, (by decide : ¬(bslashC = quoteC)),
              (by decide : ¬('b' = quoteC)), (by decide : ¬('b' = bslashC)),
              (by decide : ¬('b' = '/')), ih']
          · by_cases h4 : c = tabC
            · subst h4
              rw [show escapeChar tabC = [bslashC, 't'] from by decide]
              simp [parseStrBody, consFst, (by decide : ¬(bslashC = quoteC)),
                (by decide : ¬('t' = quoteC)), (by decide : ¬('t' = bslashC)),
                (by decide : ¬('t' = '/')), (by decide : ¬('t' = 'b')), ih']
            · by_cases h5 : c = nlC
              · subst h5
                rw [show escapeChar nlC = [bslashC, 'n'] from by decide]
                simp [parseStrBody, consFst, (by decide : ¬(bslashC = quoteC)),
                  (by decide : ¬('n' = quoteC)), (by decide : ¬('n' = bslashC)),
                  (by decide : ¬('n' = '/')), (by decide : ¬('n' = 'b')),
                  (by decide : ¬('n' = 't')), ih']
              · by_cases h6 : c = ffC
                · subst h6
                  rw [show escapeChar ffC = [bslashC, 'f'] from by decide]
                  simp [parseStrBody, consFst, (by decide : ¬(bslashC = quoteC)),
                    (by decide : ¬('f' = quoteC)), (by decide : ¬('f' = bslashC)),
                    (by decide : ¬('f' = '/')), (by decide : ¬('f' = 'b')),
                    (by decide : ¬('f' = 't')), (by decide : ¬('f' = 'n')), ih']
                · by_cases h7 : c = crC
                  · subst h7
                    rw [show escapeChar crC = [bslashC, 'r'] from by decide]
                    simp [parseStrBody, consFst, (by decide : ¬(bslashC = quoteC)),
                      (by decide : ¬('r' = quoteC)), (by decide : ¬('r' = bslashC)),
                      (by decide : ¬('r' = '/')), (by decide : ¬('r' = 'b')),
                      (by decide : ¬('r' = 't')), (by decide : ¬('r' = 'n')),
                      (by decide : ¬('r' = 'f')), ih']
                  · by_cases h8 : c.toNat < 32
                    · -- generic control character: \u00XY
                      have hesc : escapeChar c =
                          [bslashC, 'u', '0', '0', hexDigitChar (c.toNat / 16),
                            hexDigitChar (c.toNat % 16)] := by
                        simp [escapeChar, h1, h2, h3, h4, h5, h6, h7, h8]
                      rw [hesc]
                      have hdiv : c.toNat / 16 < 16 := by omega
                      have hmod : c.toNat % 16 < 16 := by omega
                      have hx : hex4 '0' '0' (hexDigitChar (c.toNat / 16))
                          (hexDigitChar (c.toNat % 16)) = some c.toNat := by
                        simp [hex4, hexVal_hexDigitChar hdiv, hexVal_hexDigitChar hmod,
                          (show hexVal '0' = some 0 by decide)]
                        omega
                      have hs1 : ¬(55296 ≤ c.toNat ∧ c.toNat ≤ 56319) := by omega
                      have hs2 : ¬(56320 ≤ c.toNat ∧ c.toNat ≤ 57343) := by omega
                      simp [parseStrBody, consFst, (by decide : ¬(bslashC = quoteC)),
                        (by decide : ¬('u' = quoteC)), (by decide : ¬('u' = bslashC)),
                        (by decide : ¬('u' = '/')), (by decide : ¬('u' = 'b')),
                        (by decide : ¬('u' = 't')), (by decide : ¬('u' = 'n')),
                        (by decide : ¬('u' = 'f')), (by decide : ¬('u' = 'r')),
                        hx, hs1, hs2, ih']
                    · -- plain character
                      have hesc : escapeChar c = [c] := by
                        simp [escapeChar, h1, h2, h3, h4, h5, h6, h7, h8]
                      rw [hesc]
                      have hge : 32 ≤ c.toNat := by omega
                      simp [parseStrBody, consFst, h1, h2, hge, ih']

theorem escapeChar_length_pos (c : Char) : 1 ≤ (escapeChar c).length := by
  unfold escapeChar
  split_ifs <;> simp

theorem escLen (s : List Char) : s.length ≤ (s.flatMap escapeChar).length := by
  induction s with
  | nil => simp
  | cons c t ih =>
    rw [List.flatMap_cons, List.length_append, List.length_cons]
    have := escapeChar_length_pos c
    omega

theorem litPrefix_cons (p : Char) (ps : List Char) (c : Char) (cs : List Char) :
    litPrefix (p :: ps) (c :: cs) = (decide (p = c) && litPrefix ps cs) := rfl

theorem jsize_pos (j : Json) : 1 ≤ jsize j := by
  cases j <;> simp [jsize]

theorem printV_starts (j : Json) :
    ∃ c t, printV j = c :: t ∧ isWsC c = false ∧ c ≠ ']' ∧ c ≠ rbraceC := by
  cases j with
  | null => exact ⟨'n', _, rfl, by decide, by decide, by decide⟩
  | bool b =>
    cases b
    · exact ⟨'f', _, rfl, by decide, by decide, by decide⟩
    · exact ⟨'t', _, rfl, by decide, by decide, by decide⟩
  | num m e =>
    obtain ⟨c, t, hct, hcd⟩ := printNumBody_head m.natAbs e
    have hcb : 48 ≤ c.toNat ∧ c.toNat ≤ 57 := by
      simpa [isDigitC, Bool.and_eq_true, decide_eq_true_eq] using hcd
    by_cases hm : m < 0
    · refine ⟨'-', printNumBody m.natAbs e, ?_, by decide, by decide, by decide⟩
      simp [printV, printNum, hm]
    · refine ⟨c, t ++ [], ?_, ?_, ?_, ?_⟩
      · simp [printV, printNum, hm, hct]
      · have key : ∀ x : Char, x.toNat < 48 → ¬(c = x) := by
          intro x hx
          apply char_ne_of_toNat_ne
          omega
        simp only [isWsC]
        have h1 := key spaceC (by decide)
        have h2 := key tabC (by decide)
        have h3 := key nlC (by decide)
        have h4 := key crC (by decide)
        simp [h1, h2, h3, h4]
      · apply char_ne_of_toNat_ne
        have hx : (']').toNat = 93 := by decide
        omega
      · apply char_ne_of_toNat_ne
        have hx : rbraceC.toNat = 125 := by decide
        omega
  | str s => exact ⟨quoteC, _, rfl, by decide, by decide, by decide⟩
  | arr js =>
    cases js with
    | nil => exact ⟨'[', _, rfl, by decide, by decide, by decide⟩
    | cons x xs => exact ⟨'[', _, rfl, by decide, by decide, by decide⟩
  | obj fs =>
    cases fs with
    | nil => exact ⟨lbraceC, _, rfl, by decide, by decide, by decide⟩
    | cons kv fs =>
      obtain ⟨k, v⟩ := kv
      exact ⟨lbraceC, _, rfl, by decide, by decide, by decide⟩

theorem skipWs_printV (j : Json) (r : List Char) :
    skipWs (printV j ++ r) = printV j ++ r := by
  obtain ⟨c, t, hct, hws, _, _⟩ := printV_starts j
  rw [hct, List.cons_append, skipWs_cons hws]

theorem headIs_printV_rb (j : Json) (r : List Char) :
    headIs (printV j ++ r) ']' = false := by
  obtain ⟨c, t, hct, _, hne, _⟩ := printV_starts j
  rw [hct, List.cons_append, headIs_cons]
  simpa using hne

theorem headIs_printV_rbrace (j : Json) (r : List Char) :
    headIs (printV j ++ r) rbraceC = false := by
  obtain ⟨c, t, hct, _, _, hne⟩ := printV_starts j
  rw [hct, List.cons_append, headIs_cons]
  simpa using hne

theorem delimOk_elemsTail (xs : List Json) (r : List Char) :
    delimOk (printElemsTail xs ++ ']' :: r) := by
  cases xs with
  | nil => simp [printElemsTail, delimOk]
  | cons y ys =>
    show delimOk (',' :: _)
    simp [delimOk]

theorem delimOk_fieldsTail (fs : List (String × Json)) (r : List Char) :
    delimOk (printFieldsTail fs ++ rbraceC :: r) := by
  cases fs with
  | nil => simp [printFieldsTail, delimOk]
  | cons kv fs =>
    obtain ⟨k, v⟩ := kv
    show delimOk (',' :: _)
    simp [delimOk]

theorem numStart_dispatch {c : Char} (hc : c = '-' ∨ isDigitC c = true) (t : List Char) :
    skipWs (c :: t) = c :: t ∧
    litPrefix ['n', 'u', 'l', 'l'] (c :: t) = false ∧
    litPrefix ['t', 'r', 'u', 'e'] (c :: t) = false ∧
    litPrefix ['f', 'a', 'l', 's', 'e'] (c :: t) = false ∧
    headIs (c :: t) quoteC = false ∧
    headIs (c :: t) '[' = false ∧
    headIs (c :: t) lbraceC = false := by
  have hbound : c.toNat = 45 ∨ (48 ≤ c.toNat ∧ c.toNat ≤ 57) := by
    rcases hc with h | h
    · left; subst h; decide
    · right; simpa [isDigitC, Bool.and_eq_true, decide_eq_true_eq] using h
  have key : ∀ x : Char, x.toNat ≠ 45 → (x.toNat < 48 ∨ 57 < x.toNat) → ¬(c = x) ∧ ¬(x = c) := by
    intro x h1 h2
    constructor <;> apply char_ne_of_toNat_ne <;> omega
  have kn := key 'n' (by decide) (by decide)
  have kt := key 't' (by decide) (by decide)
  have kf := key 'f' (by decide) (by decide)
  have kq := key quoteC (by decide) (by decide)
  have kb := key '[' (by decide) (by decide)
  have kl := key lbraceC (by decide) (by decide)
  have ksp := key spaceC (by decide) (by decide)
  have ktab := key tabC (by decide) (by decide)
  have knl := key nlC (by decide) (by decide)
  have kcr := key crC (by decide) (by decide)
  refine ⟨?_, ?_, ?_, ?_, ?_, ?_, ?_⟩
  · apply skipWs_cons
    simp [isWsC, ksp.1, ktab.1, knl.1, kcr.1]
  · simp [litPrefix_cons, kn.2]
  · simp [litPrefix_cons, kt.2]
  · simp [litPrefix_cons, kf.2]
  · simp [headIs_cons, kq.1]
  · simp [headIs_cons, kb.1]
  · simp [headIs_cons, kl.1]

theorem headIs_cons_ne {c x : Char} (h : ¬(c = x)) (t : List Char) :
    headIs (c :: t) x = false := by
  rw [headIs_cons]
  simpa using h

theorem headIs_cons_self (c : Char) (t : List Char) : headIs (c :: t) c = true := by
  rw [headIs_cons]
  simp

theorem litPrefix_self (p rest : List Char) : litPrefix p (p ++ rest) = true := by
  induction p with
  | nil => rfl
  | cons c t ih => simpa [litPrefix_cons] using ih

theorem litPrefix_head_ne {p c : Char} (h : ¬(p = c)) (ps cs : List Char) :
    litPrefix (p :: ps) (c :: cs) = false := by
  simp [litPrefix_cons, h]

theorem litPrefix_nil (cs : List Char) : litPrefix [] cs = true := rfl

/-- Round trip of the textual layer: parsing a printed JSON tree (in
any delimiter context, with enough fuel) recovers the tree. -/
theorem parsePrintRT : ∀ fuel : Nat,
    (∀ (j : Json) (rest : List Char), jwf j = true → delimOk rest → jsize j ≤ fuel →
      parseValue fuel (printV j ++ rest) = some (j, rest)) ∧
    (∀ (js : List Json) (rest : List Char), jwfL js = true → delimOk rest → jsizeL js < fuel →
      parseArrTail fuel (printElemsTail js ++ ']' :: rest) = some (js, rest)) ∧
    (∀ (fs : List (String × Json)) (rest : List Char), jwfF fs = true → delimOk rest →
      jsizeF fs < fuel →
      parseObjTail fuel (printFieldsTail fs ++ rbraceC :: rest) = some (fs, rest)) := by
  intro fuel
  induction fuel with
  | zero =>
    refine ⟨?_, ?_, ?_⟩
    · intro j rest _ _ hsz
      have := jsize_pos j
      omega
    · intro js rest _ _ hsz
      omega
    · intro fs rest _ _ hsz
      omega
  | succ f ih =>
    obtain ⟨ihV, ihA, ihO⟩ := ih
    refine ⟨?_, ?_, ?_⟩
    · intro j rest hwf hrest hsz
      cases j with
      | null =>
        show parseValue (f + 1) ('n' :: 'u' :: 'l' :: 'l' :: rest) = some (.null, rest)
        have h0 : skipWs ('n' :: 'u' :: 'l' :: 'l' :: rest) = 'n' :: 'u' :: 'l' :: 'l' :: rest :=
          skipWs_cons (by decide)
        have hlit : litPrefix ['n', 'u', 'l', 'l'] ('n' :: 'u' :: 'l' :: 'l' :: rest) = true := by
          simp [litPrefix_cons, litPrefix_nil]
        simp only [parseValue, h0, hlit, if_true, List.drop_succ_cons, List.drop_zero]
      | bool b =>
        cases b
        · show parseValue (f + 1) ('f' :: 'a' :: 'l' :: 's' :: 'e' :: rest) =
            some (.bool false, rest)
          have h0 : skipWs ('f' :: 'a' :: 'l' :: 's' :: 'e' :: rest) =
              'f' :: 'a' :: 'l' :: 's' :: 'e' :: rest := skipWs_cons (by decide)
          have hlit : litPrefix ['f', 'a', 'l', 's', 'e']
              ('f' :: 'a' :: 'l' :: 's' :: 'e' :: rest) = true := by
            simp [litPrefix_cons, litPrefix_nil]
          simp only [parseValue, h0, hlit,
            litPrefix_head_ne (by decide : ¬('n' = 'f')),
            litPrefix_head_ne (by decide : ¬('t' = 'f')),
            Bool.false_eq_true, if_false, if_true, List.drop_succ_cons, List.drop_zero]
        · show parseValue (f + 1) ('t' :: 'r' :: 'u' :: 'e' :: rest) = some (.bool true, rest)
          have h0 : skipWs ('t' :: 'r' :: 'u' :: 'e' :: rest) = 't' :: 'r' :: 'u' :: 'e' :: rest :=
            skipWs_cons (by decide)
          have hlit : litPrefix ['t', 'r', 'u', 'e'] ('t' :: 'r' :: 'u' :: 'e' :: rest) = true := by
            simp [litPrefix_cons, litPrefix_nil]
          simp only [parseValue, h0, hlit,
            litPrefix_head_ne (by decide : ¬('n' = 't')),
            Bool.false_eq_true, if_false, if_true, List.drop_succ_cons, List.drop_zero]
      | num m e =>
        have hpn := parseNumber_print m e rest hrest
        have hstart : ∃ c t, printNum m e = c :: t ∧ (c = '-' ∨ isDigitC c = true) := by
          obtain ⟨c, t, hct, hcd⟩ := printNumBody_head m.natAbs e
          by_cases hm : m < 0
          · exact ⟨'-', printNumBody m.natAbs e, by simp [printNum, hm], Or.inl rfl⟩
          · exact ⟨c, t, by simp [printNum, hm, hct], Or.inr hcd⟩
        obtain ⟨c, t, hct, hcd⟩ := hstart
        have hd := numStart_dispatch hcd (t ++ rest)
        show parseValue (f + 1) (printNum m e ++ rest) = some (.num m e, rest)
        rw [hct, List.cons_append]
        rw [hct, List.cons_append] at hpn
        simp only [parseValue, hd.1, hd.2.1, hd.2.2.1, hd.2.2.2.1, hd.2.2.2.2.1,
          hd.2.2.2.2.2.1, hd.2.2.2.2.2.2, Bool.false_eq_true, if_false, hpn, Option.map_some']
      | str s =>
        obtain ⟨sd⟩ := s
        have hshape : printV (.str ⟨sd⟩) ++ rest =
            quoteC :: (sd.flatMap escapeChar ++ (quoteC :: rest)) := by
          show (quoteC :: (sd.flatMap escapeChar ++ [quoteC])) ++ rest = _
          simp [List.append_assoc]
        rw [hshape]
        have h0 : skipWs (quoteC :: (sd.flatMap escapeChar ++ (quoteC :: rest))) =
            quoteC :: (sd.flatMap escapeChar ++ (quoteC :: rest)) := skipWs_cons (by decide)
        have hfuel : sd.length <
            (quoteC :: (sd.flatMap escapeChar ++ (quoteC :: rest))).length := by
          have := escLen sd
          simp only [List.length_cons, List.length_append]
          omega
        have hsb := parseStrBody_print sd
          (quoteC :: (sd.flatMap escapeChar ++ (quoteC :: rest))).length rest hfuel
        simp only [parseValue, h0,
          litPrefix_head_ne (by decide : ¬('n' = quoteC)),
          litPrefix_head_ne (by decide : ¬('t' = quoteC)),
          litPrefix_head_ne (by decide : ¬('f' = quoteC)),
          headIs_cons_self, Bool.false_eq_true, if_false, if_true, List.tail_cons,
          hsb, Option.map_some']
      | arr js =>
        cases js with
        | nil =>
          show parseValue (f + 1) ('[' :: ']' :: rest) = some (.arr [], rest)
          have h0 : skipWs ('[' :: ']' :: rest) = '[' :: ']' :: rest := skipWs_cons (by decide)
          have h1 : skipWs (']' :: rest) = ']' :: rest := skipWs_cons (by decide)
          simp only [parseValue, h0, h1, List.tail_cons,
            litPrefix_head_ne (by decide : ¬('n' = '[')),
            litPrefix_head_ne (by decide : ¬('t' = '[')),
            litPrefix_head_ne (by decide : ¬('f' = '[')),
            headIs_cons_ne (by decide : ¬('[' = quoteC)), headIs_cons_self,
            headIs_cons_ne (by decide : ¬(']' = quoteC)),
            Bool.false_eq_true, if_false, if_true]
        | cons x xs =>
          have hshape : printV (.arr (x :: xs)) ++ rest =
              '[' :: (printV x ++ (printElemsTail xs ++ (']' :: rest))) := by
            show ('[' :: (printV x ++ printElemsTail xs ++ [']'])) ++ rest = _
            simp [List.append_assoc]
          rw [hshape]
          simp only [jwf, jwfL, Bool.and_eq_true] at hwf
          simp only [jsize, jsizeL] at hsz
          have hpx := jsize_pos x
          have hV := ihV x (printElemsTail xs ++ (']' :: rest)) hwf.1
            (delimOk_elemsTail xs rest) (by omega)
          have hA := ihA xs rest hwf.2 hrest (by omega)
          have h0 : skipWs ('[' :: (printV x ++ (printElemsTail xs ++ (']' :: rest)))) =
              '[' :: (printV x ++ (printElemsTail xs ++ (']' :: rest))) :=
            skipWs_cons (by decide)
          simp only [parseValue, h0, List.tail_cons,
            litPrefix_head_ne (by decide : ¬('n' = '[')),
            litPrefix_head_ne (by decide : ¬('t' = '[')),
            litPrefix_head_ne (by decide : ¬('f' = '[')),
            headIs_cons_ne (by decide : ¬('[' = quoteC)), headIs_cons_self,
            skipWs_printV, headIs_printV_rb,
            Bool.false_eq_true, if_false, if_true, hV, hA]
      | obj fs =>
        cases fs with
        | nil =>
          show parseValue (f + 1) (lbraceC :: rbraceC :: rest) = some (.obj [], rest)
          have h0 : skipWs (lbraceC :: rbraceC :: rest) = lbraceC :: rbraceC :: rest :=
            skipWs_cons (by decide)
          have h1 : skipWs (rbraceC :: rest) = rbraceC :: rest := skipWs_cons (by decide)
          simp only [parseValue, h0, h1, List.tail_cons,
            litPrefix_head_ne (by decide : ¬('n' = lbraceC)),
            litPrefix_head_ne (by decide : ¬('t' = lbraceC)),
            litPrefix_head_ne (by decide : ¬('f' = lbraceC)),
            headIs_cons_ne (by decide : ¬(lbraceC = quoteC)),
            headIs_cons_ne (by decide : ¬(lbraceC = '[')), headIs_cons_self,
            Bool.false_eq_true, if_false, if_true]
        | cons kv fs' =>
          obtain ⟨k, v⟩ := kv
          obtain ⟨kd⟩ := k
          have hshape : printV (.obj ((⟨kd⟩, v) :: fs')) ++ rest =
              lbraceC :: quoteC :: (kd.flatMap escapeChar ++
                (quoteC :: ':' :: (printV v ++ (printFieldsTail fs' ++ (rbraceC :: rest))))) := by
            show (lbraceC :: (printStr kd ++ ':' :: printV v ++ printFieldsTail fs' ++
              [rbraceC])) ++ rest = _
            simp [printStr, List.append_assoc]
          rw [hshape]
          simp only [jwf, jwfF, nodupKeysJ, Bool.and_eq_true] at hwf
          simp only [jsize, jsizeF] at hsz
          have hpv := jsize_pos v
          have hV := ihV v (printFieldsTail fs' ++ (rbraceC :: rest)) hwf.2.1
            (delimOk_fieldsTail fs' rest) (by omega)
          have hO := ihO fs' rest hwf.2.2 hrest (by omega)
          have hnodup : nodupKeysJ ((⟨kd⟩, v) :: fs') = true := by
            simp only [nodupKeysJ, Bool.and_eq_true]
            exact ⟨hwf.1.1, hwf.1.2⟩
          have h0 : skipWs (lbraceC :: quoteC :: (kd.flatMap escapeChar ++
              (quoteC :: ':' :: (printV v ++ (printFieldsTail fs' ++ (rbraceC :: rest)))))) =
              lbraceC :: quoteC :: (kd.flatMap escapeChar ++
              (quoteC :: ':' :: (printV v ++ (printFieldsTail fs' ++ (rbraceC :: rest))))) :=
            skipWs_cons (by decide)
          have h1 : skipWs (quoteC :: (kd.flatMap escapeChar ++
              (quoteC :: ':' :: (printV v ++ (printFieldsTail fs' ++ (rbraceC :: rest)))))) =
              quoteC :: (kd.flatMap escapeChar ++
              (quoteC :: ':' :: (printV v ++ (printFieldsTail fs' ++ (rbraceC :: rest))))) :=
            skipWs_cons (by decide)
          have hfuel : kd.length < (quoteC :: (kd.flatMap escapeChar ++
              (quoteC :: ':' :: (printV v ++ (printFieldsTail fs' ++ (rbraceC :: rest)))))).length := by
            have := escLen kd
            simp only [List.length_cons, List.length_append]
            omega
          have hsb := parseStrBody_print kd
            (quoteC :: (kd.flatMap escapeChar ++
              (quoteC :: ':' :: (printV v ++ (printFieldsTail fs' ++ (rbraceC :: rest)))))).length
            (':' :: (printV v ++ (printFieldsTail fs' ++ (rbraceC :: rest)))) hfuel
          have h2 : skipWs (':' :: (printV v ++ (printFieldsTail fs' ++ (rbraceC :: rest)))) =
              ':' :: (printV v ++ (printFieldsTail fs' ++ (rbraceC :: rest))) :=
            skipWs_cons (by decide)
          have hmk := mkObjList_eq_self ((⟨kd⟩, v) :: fs') hnodup
          simp only [parseValue, h0, h1, h2, List.tail_cons,
            litPrefix_head_ne (by decide : ¬('n' = lbraceC)),
            litPrefix_head_ne (by decide : ¬('t' = lbraceC)),
            litPrefix_head_ne (by decide : ¬('f' = lbraceC)),
            headIs_cons_ne (by decide : ¬(lbraceC = quoteC)),
            headIs_cons_ne (by decide : ¬(lbraceC = '[')), headIs_cons_self,
            headIs_cons_ne (by decide : ¬(quoteC = rbraceC)),
            headIs_cons_ne (by decide : ¬(':' = rbraceC)),
            Bool.false_eq_true, if_false, if_true, hsb, hV, hO, hmk]
    · intro js rest hwf hrest hsz
      cases js with
      | nil =>
        show parseArrTail (f + 1) (']' :: rest) = some ([], rest)
        have h0 : skipWs (']' :: rest) = ']' :: rest := skipWs_cons (by decide)
        simp only [parseArrTail, h0, headIs_cons_self, if_true, List.tail_cons]
      | cons y ys =>
        have hshape : printElemsTail (y :: ys) ++ ']' :: rest =
            ',' :: (printV y ++ (printElemsTail ys ++ (']' :: rest))) := by
          show (',' :: (printV y ++ printElemsTail ys)) ++ ']' :: rest = _
          simp [List.append_assoc]
        rw [hshape]
        simp only [jwfL, Bool.and_eq_true] at hwf
        simp only [jsizeL] at hsz
        have hpy := jsize_pos y
        have hV := ihV y (printElemsTail ys ++ (']' :: rest)) hwf.1
          (delimOk_elemsTail ys rest) (by omega)
        have hA := ihA ys rest hwf.2 hrest (by omega)
        have h0 : skipWs (',' :: (printV y ++ (printElemsTail ys ++ (']' :: rest)))) =
            ',' :: (printV y ++ (printElemsTail ys ++ (']' :: rest))) := skipWs_cons (by decide)
        simp only [parseArrTail, h0, List.tail_cons,
          headIs_cons_ne (by decide : ¬(',' = ']')), headIs_cons_self,
          Bool.false_eq_true, if_false, if_true, hV, hA]
    · intro fs rest hwf hrest hsz
      cases fs with
      | nil =>
        show parseObjTail (f + 1) (rbraceC :: rest) = some ([], rest)
        have h0 : skipWs (rbraceC :: rest) = rbraceC :: rest := skipWs_cons (by decide)
        simp only [parseObjTail, h0, headIs_cons_self, if_true, List.tail_cons]
      | cons kv fs' =>
        obtain ⟨k, v⟩ := kv
        obtain ⟨kd⟩ := k
        have hshape : printFieldsTail ((⟨kd⟩, v) :: fs') ++ rbraceC :: rest =
            ',' :: quoteC :: (kd.flatMap escapeChar ++
              (quoteC :: ':' :: (printV v ++ (printFieldsTail fs' ++ (rbraceC :: rest))))) := by
          show (',' :: (printStr kd ++ ':' :: printV v ++ printFieldsTail fs')) ++
            rbraceC :: rest = _
          simp [printStr, List.append_assoc]
        rw [hshape]
        simp only [jwfF, Bool.and_eq_true] at hwf
        simp only [jsizeF] at hsz
        have hpv := jsize_pos v
        have hV := ihV v (printFieldsTail fs' ++ (rbraceC :: rest)) hwf.1
          (delimOk_fieldsTail fs' rest) (by omega)
        have hO := ihO fs' rest hwf.2 hrest (by omega)
        have h0 : skipWs (',' :: quoteC :: (kd.flatMap escapeChar ++
            (quoteC :: ':' :: (printV v ++ (printFieldsTail fs' ++ (rbraceC :: rest)))))) =
            ',' :: quoteC :: (kd.flatMap escapeChar ++
            (quoteC :: ':' :: (printV v ++ (printFieldsTail fs' ++ (rbraceC :: rest))))) :=
          skipWs_cons (by decide)
        have h1 : skipWs (quoteC :: (kd.flatMap escapeChar ++
            (quoteC :: ':' :: (printV v ++ (printFieldsTail fs' ++ (rbraceC :: rest)))))) =
            quoteC :: (kd.flatMap escapeChar ++
            (quoteC :: ':' :: (printV v ++ (printFieldsTail fs' ++ (rbraceC :: rest))))) :=
          skipWs_cons (by decide)
        have hfuel : kd.length < (quoteC :: (kd.flatMap escapeChar ++
            (quoteC :: ':' :: (printV v ++ (printFieldsTail fs' ++ (rbraceC :: rest)))))).length := by
          have := escLen kd
          simp only [List.length_cons, List.length_append]
          omega
        have hsb := parseStrBody_print kd
          (quoteC :: (kd.flatMap escapeChar ++
            (quoteC :: ':' :: (printV v ++ (printFieldsTail fs' ++ (rbraceC :: rest)))))).length
          (':' :: (printV v ++ (printFieldsTail fs' ++ (rbraceC :: rest)))) hfuel
        have h2 : skipWs (':' :: (printV v ++ (printFieldsTail fs' ++ (rbraceC :: rest)))) =
            ':' :: (printV v ++ (printFieldsTail fs' ++ (rbraceC :: rest))) :=
          skipWs_cons (by decide)
        simp only [parseObjTail, h0, h1, h2, List.tail_cons,
          headIs_cons_ne (by decide : ¬(',' = rbraceC)), headIs_cons_self,
          headIs_cons_ne (by decide : ¬(quoteC = rbraceC)),
          headIs_cons_ne (by decide : ¬(':' = rbraceC)),
          Bool.false_eq_true, if_false, if_true, hsb, hV, hO]

theorem printNum_length_pos (m : Int) (e : Nat) : 1 ≤ (printNum m e).length := by
  obtain ⟨c, t, hct, _⟩ := printNumBody_head m.natAbs e
  unfold printNum
  rw [hct]
  simp only [List.length_append, List.length_cons]
  omega

theorem jsize_le_print : ∀ n : Nat,
    (∀ j, jsize j ≤ n → jsize j ≤ (printV j).length) ∧
    (∀ js, jsizeL js ≤ n → jsizeL js ≤ (printElemsTail js).length) ∧
    (∀ fs, jsizeF fs ≤ n → jsizeF fs ≤ (printFieldsTail fs).length) := by
  intro n
  induction n with
  | zero =>
    refine ⟨?_, ?_, ?_⟩
    · intro j h
      have := jsize_pos j
      omega
    · intro js h
      cases js with
      | nil => simp [jsizeL, printElemsTail]
      | cons y ys =>
        have := jsize_pos y
        simp [jsizeL] at h
    · intro fs h
      cases fs with
      | nil => simp [jsizeF, printFieldsTail]
      | cons kv t =>
        obtain ⟨k, v⟩ := kv
        have := jsize_pos v
        simp [jsizeF] at h
  | succ n ih =>
    obtain ⟨ihV, ihL, ihF⟩ := ih
    refine ⟨?_, ?_, ?_⟩
    · intro j hj
      cases j with
      | null => simp [jsize, printV]
      | bool b => cases b <;> simp [jsize, printV]
      | num m e =>
        have := printNum_length_pos m e
        simp only [jsize]
        simpa [printV] using this
      | str s =>
        simp [jsize, printV, printStr]
      | arr js =>
        cases js with
        | nil => simp [jsize, jsizeL, printV]
        | cons x xs =>
          simp only [jsize, jsizeL] at hj ⊢
          have hp := jsize_pos x
          have h1 := ihV x (by omega)
          have h2 := ihL xs (by omega)
          simp only [printV, List.length_cons, List.length_append]
          omega
      | obj fs =>
        cases fs with
        | nil => simp [jsize, jsizeF, printV]
        | cons kv t =>
          obtain ⟨k, v⟩ := kv
          simp only [jsize, jsizeF] at hj ⊢
          have hp := jsize_pos v
          have h1 := ihV v (by omega)
          have h2 := ihF t (by omega)
          simp only [printV, printStr, List.length_cons, List.length_append]
          omega
    · intro js hj
      cases js with
      | nil => simp [jsizeL, printElemsTail]
      | cons y ys =>
        simp only [jsizeL] at hj ⊢
        have hp := jsize_pos y
        have h1 := ihV y (by omega)
        have h2 := ihL ys (by omega)
        simp only [printElemsTail, List.length_cons, List.length_append]
        omega
    · intro fs hj
      cases fs with
      | nil => simp [jsizeF, printFieldsTail]
      | cons kv t =>
        obtain ⟨k, v⟩ := kv
        simp only [jsizeF] at hj ⊢
        have hp := jsize_pos v
        have h1 := ihV v (by omega)
        have h2 := ihF t (by omega)
        simp only [printFieldsTail, printStr, List.length_cons, List.length_append]
        simp
        omega

/-- Top-level round trip of the textual layer: `JSON.parse` applied to
`JSON.stringify` output recovers the tree. -/
theorem parseJsonText_print (j : Json) (hwf : jwf j = true) :
    parseJsonText (printJson j) = some j := by
  unfold parseJsonText printJson
  have hdata : (String.mk (printV j)).data = printV j := rfl
  rw [hdata]
  have hfuel : jsize j ≤ (printV j).length + 1 := by
    have := (jsize_le_print (jsize j)).1 j le_rfl
    omega
  have h := (parsePrintRT ((printV j).length + 1)).1 j [] hwf trivial hfuel
  rw [List.append_nil] at h
  rw [h]
  rfl

/-! ## The Serializable Value universe: well-formedness and registration -/

theorem ssize_pos (v : Serde) : 1 ≤ ssize v := by
  cases v <;> simp [ssize]

theorem mapSetAll_append_of_disjoint (fs : List (String × Json)) :
    ∀ (acc : List (String × Json)), (∀ kv ∈ fs, kv.1 ∉ acc.map Prod.fst) →
    nodupKeysJ fs = true → mapSetAll acc fs = acc ++ fs := by
  induction fs with
  | nil =>
    intro acc _ _
    simp [mapSetAll]
  | cons hd tl ih =>
    intro acc hacc hnd
    obtain ⟨k, v⟩ := hd
    simp only [nodupKeysJ, Bool.and_eq_true] at hnd
    have hk : k ∉ acc.map Prod.fst := hacc (k, v) (by simp)
    have hknotin : k ∉ tl.map Prod.fst := by simpa using hnd.1
    have step : mapSetAll acc ((k, v) :: tl) = mapSetAll (acc ++ [(k, v)]) tl := by
      simp [mapSetAll, mapSet_append_of_not_mem k v acc hk]
    rw [step, ih (acc ++ [(k, v)]) ?_ hnd.2]
    · simp
    · intro kv hmem
      simp only [List.map_append, List.mem_append]
      push_neg
      refine ⟨fun h1 => hacc kv (by simp [hmem]) h1, ?_⟩
      simp only [List.map_cons, List.map_nil, List.mem_singleton]
      intro h2
      exact hknotin (h2 ▸ List.mem_map_of_mem Prod.fst hmem)

theorem filter_ne_underscore_of_not_mem (fs : List (String × Serde))
    (h : "_" ∉ fs.map Prod.fst) : fs.filter (fun kv => kv.1 ≠ "_") = fs := by
  induction fs with
  | nil => rfl
  | cons hd tl ih =>
    obtain ⟨k, v⟩ := hd
    simp only [List.map_cons, List.mem_cons] at h
    push_neg at h
    have h1 : (fun kv : String × Serde => decide (kv.1 ≠ "_")) (k, v) = true := by
      simp only [decide_eq_true_eq]
      exact Ne.symm h.1
    rw [List.filter_cons, if_pos h1, ih h.2]

theorem nodupKeysJ_of_keys_eq (a : List (String × Json)) (b : List (String × Serde))
    (h : a.map Prod.fst = b.map Prod.fst) : nodupKeysJ a = nodupKeysS b := by
  induction a generalizing b with
  | nil =>
    cases b with
    | nil => rfl
    | cons hd tl => simp at h
  | cons hd tl ih =>
    cases b with
    | nil => simp at h
    | cons hd' tl' =>
      obtain ⟨k, v⟩ := hd
      obtain ⟨k', v'⟩ := hd'
      simp only [List.map_cons, List.cons.injEq] at h
      simp only [nodupKeysJ, nodupKeysS, h.1, h.2, ih tl' h.2]

/-- Tree-level round trip: a well-formed value of the universe with
coherently registered prototypes encodes successfully, the reviver
restores it exactly, and the encoded tree is a well-formed JSON
value. -/
theorem encode_revive : ∀ n : Nat,
    (∀ (r : Registry) (v : Serde), ssize v ≤ n → swf v = true → regOk r v = true →
      ∃ j, encodeSerde r v = .ok j ∧ revive r j = v ∧ jwf j = true) ∧
    (∀ (r : Registry) (xs : List Serde), ssizeL xs ≤ n → swfL xs = true → regOkL r xs = true →
      ∃ js, encodeL r xs = .ok js ∧ reviveL r js = xs ∧ jwfL js = true) ∧
    (∀ (r : Registry) (fs : List (String × Serde)), ssizeF fs ≤ n → swfF fs = true →
      regOkF r fs = true →
      ∃ efs, encodeF r fs = .ok efs ∧ reviveF r efs = fs ∧ jwfF efs = true ∧
        efs.map Prod.fst = fs.map Prod.fst) := by
  intro n
  induction n with
  | zero =>
    refine ⟨?_, ?_, ?_⟩
    · intro r v hsz _ _
      have := ssize_pos v
      omega
    · intro r xs hsz _ _
      cases xs with
      | nil => exact ⟨[], rfl, rfl, rfl⟩
      | cons x t =>
        have := ssize_pos x
        simp [ssizeL] at hsz
    · intro r fs hsz _ _
      cases fs with
      | nil => exact ⟨[], rfl, rfl, rfl, rfl⟩
      | cons kv t =>
        obtain ⟨k, v⟩ := kv
        have := ssize_pos v
        simp [ssizeF] at hsz
  | succ n ih =>
    obtain ⟨ihV, ihL, ihF⟩ := ih
    refine ⟨?_, ?_, ?_⟩
    · intro r v hsz hwf hreg
      cases v with
      | null => exact ⟨.null, rfl, rfl, rfl⟩
      | bool b => exact ⟨.bool b, rfl, rfl, rfl⟩
      | num m e => exact ⟨.num m e, rfl, rfl, rfl⟩
      | str s => exact ⟨.str s, rfl, rfl, rfl⟩
      | arr xs =>
        simp only [ssize] at hsz
        simp only [swf] at hwf
        simp only [regOk] at hreg
        obtain ⟨js, h1, h2, h3⟩ := ihL r xs (by omega) hwf hreg
        refine ⟨.arr js, ?_, ?_, ?_⟩
        · simp only [encodeSerde, h1]
          rfl
        · simp [revive, h2]
        · simpa [jwf] using h3
      | obj fs =>
        simp only [ssize] at hsz
        simp only [swf, Bool.and_eq_true] at hwf
        simp only [regOk] at hreg
        obtain ⟨efs, h1, h2, h3, h4⟩ := ihF r fs (by omega) hwf.2.2 hreg
        have hnotmem : "_" ∉ fs.map Prod.fst := by simpa using hwf.1
        have hget : mapGet "_" fs = none :=
          mapGet_eq_none_of_not_mem "_" fs (by simpa [h4] using hnotmem)
        refine ⟨.obj efs, ?_, ?_, ?_⟩
        · simp only [encodeSerde, h1]
          rfl
        · simp only [revive, h2, hget]
        · have hnd : nodupKeysJ efs = true := by
            rw [nodupKeysJ_of_keys_eq efs fs h4]
            exact hwf.2.1
          simp [jwf, hnd, h3]
      | struct p fs =>
        simp only [ssize] at hsz
        simp only [swf, Bool.and_eq_true] at hwf
        cases hlook : lookupIdentifier r p with
        | none => simp [regOk, hlook] at hreg
        | some id =>
          simp only [regOk, hlook, Bool.and_eq_true] at hreg
          have hdesc : lookupDescriptor r id = some p := by
            have := hreg.1
            simpa using this
          obtain ⟨efs, h1, h2, h3, h4⟩ := ihF r fs (by omega) hwf.2.2 hreg.2
          have hnotmem : "_" ∉ fs.map Prod.fst := by simpa using hwf.1
          have hnotmemE : "_" ∉ efs.map Prod.fst := by simpa [h4] using hnotmem
          have hndE : nodupKeysJ efs = true := by
            rw [nodupKeysJ_of_keys_eq efs fs h4]
            exact hwf.2.1
          have hset : mapSetAll [("_", Json.str id)] efs = ("_", Json.str id) :: efs := by
            rw [mapSetAll_append_of_disjoint efs [("_", Json.str id)] ?_ hndE]
            · rfl
            · intro kv hkv
              simp only [List.map_cons, List.map_nil, List.mem_singleton]
              intro hcon
              exact hnotmemE (hcon ▸ List.mem_map_of_mem Prod.fst hkv)
          refine ⟨.obj (("_", Json.str id) :: efs), ?_, ?_, ?_⟩
          · simp only [encodeSerde, hlook, h1, hset]
            rw [← hset]
            rfl
          · have hfil : (("_", Serde.str id) :: fs).filter (fun kv => kv.1 ≠ "_") = fs := by
              rw [List.filter_cons]
              simp only [decide_eq_true_eq]
              rw [if_neg (by simp)]
              exact filter_ne_underscore_of_not_mem fs hnotmem
            simp only [revive, reviveF, h2]
            simp [mapGet, hdesc, hfil]
            intro a b hab hcon
            exact hnotmem (hcon ▸ List.mem_map_of_mem Prod.fst hab)
          · have hnd : nodupKeysJ (("_", Json.str id) :: efs) = true := by
              simp only [nodupKeysJ, Bool.and_eq_true]
              exact ⟨by simpa using hnotmemE, hndE⟩
            simp [jwf, jwfF, hnd, h3]
    · intro r xs hsz hwf hreg
      cases xs with
      | nil => exact ⟨[], rfl, rfl, rfl⟩
      | cons x t =>
        simp only [ssizeL] at hsz
        simp only [swfL, Bool.and_eq_true] at hwf
        simp only [regOkL, Bool.and_eq_true] at hreg
        obtain ⟨j, h1, h2, h3⟩ := ihV r x (by omega) hwf.1 hreg.1
        obtain ⟨js, h4, h5, h6⟩ := ihL r t (by omega) hwf.2 hreg.2
        refine ⟨j :: js, ?_, ?_, ?_⟩
        · simp only [encodeL, h1, h4]
          rfl
        · simp [reviveL, h2, h5]
        · simp [jwfL, h3, h6]
    · intro r fs hsz hwf hreg
      cases fs with
      | nil => exact ⟨[], rfl, rfl, rfl, rfl⟩
      | cons kv t =>
        obtain ⟨k, v⟩ := kv
        simp only [ssizeF] at hsz
        simp only [swfF, Bool.and_eq_true] at hwf
        simp only [regOkF, Bool.and_eq_true] at hreg
        obtain ⟨j, h1, h2, h3⟩ := ihV r v (by omega) hwf.1 hreg.1
        obtain ⟨efs, h4, h5, h6, h7⟩ := ihF r t (by omega) hwf.2 hreg.2
        refine ⟨(k, j) :: efs, ?_, ?_, ?_, ?_⟩
        · simp only [encodeF, h1, h4]
          rfl
        · simp [reviveF, h2, h5]
        · simp [jwfF, h3, h6]
        · simp [h7]

/-- Full-pipeline round trip: stringify then parse restores the value
exactly. -/
theorem stringify_parse_roundtrip (r : Registry) (v : Serde) (h1 : swf v = true)
    (h2 : regOk r v = true) :
    ∃ s, Struct.stringify r v = .ok s ∧ Struct.parse r s = .ok v := by
  obtain ⟨j, he, hrev, hjwf⟩ := (encode_revive (ssize v)).1 r v le_rfl h1 h2
  refine ⟨printJson j, ?_, ?_⟩
  · simp only [Struct.stringify, he]
    rfl
  · simp [Struct.parse, parseJsonText_print j hjwf, hrev]

/-- Encode succeeds whenever every tagged value inside has a
`PROTO_TO_ID` entry (the decode side of the registry is not
consulted by encode). -/
theorem encodeTotal : ∀ n : Nat,
    (∀ (r : Registry) (v : Serde), ssize v ≤ n → protosReg r v = true →
      ∃ j, encodeSerde r v = .ok j) ∧
    (∀ (r : Registry) (xs : List Serde), ssizeL xs ≤ n → protosRegL r xs = true →
      ∃ js, encodeL r xs = .ok js) ∧
    (∀ (r : Registry) (fs : List (String × Serde)), ssizeF fs ≤ n → protosRegF r fs = true →
      ∃ efs, encodeF r fs = .ok efs) := by
  intro n
  induction n with
  | zero =>
    refine ⟨?_, ?_, ?_⟩
    · intro r v hsz _
      have := ssize_pos v
      omega
    · intro r xs hsz _
      cases xs with
      | nil => exact ⟨[], rfl⟩
      | cons x t =>
        have := ssize_pos x
        simp [ssizeL] at hsz
    · intro r fs hsz _
      cases fs with
      | nil => exact ⟨[], rfl⟩
      | cons kv t =>
        obtain ⟨k, v⟩ := kv
        have := ssize_pos v
        simp [ssizeF] at hsz
  | succ n ih =>
    obtain ⟨ihV, ihL, ihF⟩ := ih
    refine ⟨?_, ?_, ?_⟩
    · intro r v hsz hp
      cases v with
      | null => exact ⟨.null, rfl⟩
      | bool b => exact ⟨.bool b, rfl⟩
      | num m e => exact ⟨.num m e, rfl⟩
      | str s => exact ⟨.str s, rfl⟩
      | arr xs =>
        simp only [ssize] at hsz
        simp only [protosReg] at hp
        obtain ⟨js, h1⟩ := ihL r xs (by omega) hp
        exact ⟨.arr js, by simp only [encodeSerde, h1]; rfl⟩
      | obj fs =>
        simp only [ssize] at hsz
        simp only [protosReg] at hp
        obtain ⟨efs, h1⟩ := ihF r fs (by omega) hp
        exact ⟨.obj efs, by simp only [encodeSerde, h1]; rfl⟩
      | struct p fs =>
        simp only [ssize] at hsz
        simp only [protosReg, Bool.and_eq_true, Option.isSome_iff_exists] at hp
        obtain ⟨⟨id, hid⟩, hrest⟩ := hp
        obtain ⟨efs, h1⟩ := ihF r fs (by omega) hrest
        refine ⟨.obj (mapSetAll [("_", Json.str id)] efs), ?_⟩
        simp only [encodeSerde, hid, h1]
        rfl
    · intro r xs hsz hp
      cases xs with
      | nil => exact ⟨[], rfl⟩
      | cons x t =>
        simp only [ssizeL] at hsz
        simp only [protosRegL, Bool.and_eq_true] at hp
        obtain ⟨j, h1⟩ := ihV r x (by omega) hp.1
        obtain ⟨js, h2⟩ := ihL r t (by omega) hp.2
        refine ⟨j :: js, ?_⟩
        simp only [encodeL, h1, h2]
        rfl
    · intro r fs hsz hp
      cases fs with
      | nil => exact ⟨[], rfl⟩
      | cons kv t =>
        obtain ⟨k, v⟩ := kv
        simp only [ssizeF] at hsz
        simp only [protosRegF, Bool.and_eq_true] at hp
        obtain ⟨j, h1⟩ := ihV r v (by omega) hp.1
        obtain ⟨efs, h2⟩ := ihF r t (by omega) hp.2
        refine ⟨(k, j) :: efs, ?_⟩
        simp only [encodeF, h1, h2]
        rfl

/-! ## Hydration and pass-through helpers -/

theorem reviveF_keys (r : Registry) (fs : List (String × Json)) :
    (reviveF r fs).map Prod.fst = fs.map Prod.fst := by
  induction fs with
  | nil => rfl
  | cons kv t ih =>
    obtain ⟨k, v⟩ := kv
    simp [reviveF, ih]

theorem mapGet_reviveF (r : Registry) (k : String) (fs : List (String × Json)) :
    mapGet k (reviveF r fs) = (mapGet k fs).map (revive r) := by
  induction fs with
  | nil => rfl
  | cons kv t ih =>
    obtain ⟨k', v⟩ := kv
    by_cases h : k' = k <;> simp [reviveF, mapGet, h, ih]

/-- The hydration step of the reviver: a keyed node whose reserved
field is a string with a registered identifier becomes a live value of
the registered prototype, with the reserved binding deleted. -/
theorem revive_obj_found (r : Registry) (fs : List (String × Json)) (id : UUID) (p : Proto)
    (h1 : mapGet "_" (reviveF r fs) = some (.str id))
    (h2 : lookupDescriptor r id = some p) :
    revive r (.obj fs) = .struct p ((reviveF r fs).filter (fun kv => kv.1 ≠ "_")) := by
  simp only [revive, h1, h2]

/-- The pass-through branch: an unregistered identifier leaves the node
a plain keyed collection, fields revived, nothing removed. -/
theorem revive_obj_unknown (r : Registry) (fs : List (String × Json)) (id : UUID)
    (h1 : mapGet "_" (reviveF r fs) = some (.str id))
    (h2 : lookupDescriptor r id = none) :
    revive r (.obj fs) = .obj (reviveF r fs) := by
  simp only [revive, h1, h2]

theorem keys_filter_ne_underscore (l : List (String × Serde)) :
    "_" ∉ (l.filter (fun kv => kv.1 ≠ "_")).map Prod.fst := by
  intro h
  obtain ⟨kv, hkv, hk⟩ := List.mem_map.mp h
  have := List.of_mem_filter hkv
  simp only [decide_eq_true_eq] at this
  exact this hk

theorem revive_not_str (r : Registry) (j : Json) (h : ∀ s, j ≠ .str s) (s : String) :
    revive r j ≠ .str s := by
  cases j with
  | null => simp [revive]
  | bool b => simp [revive]
  | num m e => simp [revive]
  | str s' => exact absurd rfl (h s')
  | arr js => simp [revive]
  | obj fs =>
    simp only [revive]
    split
    · split
      · intro hcon
        exact Serde.noConfusion hcon
      · intro hcon
        exact Serde.noConfusion hcon
    · intro hcon
      exact Serde.noConfusion hcon

theorem revive_obj_nostr (r : Registry) (fs : List (String × Json))
    (h : ∀ s, mapGet "_" (reviveF r fs) ≠ some (.str s)) :
    revive r (.obj fs) = .obj (reviveF r fs) := by
  simp only [revive]

/-- On trees free of registered identifiers the reviver is the plain
read-back: nothing is hydrated, nothing is changed. -/
theorem revive_untagged : ∀ n : Nat,
    (∀ (r : Registry) (j : Json), jsize j ≤ n → untagged r j = true →
      revive r j = Serde.ofJson j) ∧
    (∀ (r : Registry) (js : List Json), jsizeL js ≤ n → untaggedL r js = true →
      reviveL r js = Serde.ofJsonL js) ∧
    (∀ (r : Registry) (fs : List (String × Json)), jsizeF fs ≤ n → untaggedF r fs = true →
      reviveF r fs = Serde.ofJsonF fs) := by
  intro n
  induction n with
  | zero =>
    refine ⟨?_, ?_, ?_⟩
    · intro r j hsz _
      have := jsize_pos j
      omega
    · intro r js hsz _
      cases js with
      | nil => rfl
      | cons y ys =>
        have := jsize_pos y
        simp [jsizeL] at hsz
    · intro r fs hsz _
      cases fs with
      | nil => rfl
      | cons kv t =>
        obtain ⟨k, v⟩ := kv
        have := jsize_pos v
        simp [jsizeF] at hsz
  | succ n ih =>
    obtain ⟨ihV, ihL, ihF⟩ := ih
    refine ⟨?_, ?_, ?_⟩
    · intro r j hsz hu
      cases j with
      | null => rfl
      | bool b => rfl
      | num m e => rfl
      | str s => rfl
      | arr js =>
        simp only [jsize] at hsz
        simp only [untagged] at hu
        have := ihL r js (by omega) hu
        simp [revive, Serde.ofJson, this]
      | obj fs =>
        simp only [jsize] at hsz
        simp only [untagged, Bool.and_eq_true] at hu
        have hF := ihF r fs (by omega) hu.2
        cases hm : mapGet "_" fs with
        | none =>
          have hg : mapGet "_" (reviveF r fs) = none := by
            rw [mapGet_reviveF, hm]
            rfl
          have := revive_obj_nostr r fs (by intro s hcon; rw [hg] at hcon; exact Option.noConfusion hcon)
          rw [this, hF]
          rfl
        | some jv =>
          have hgv : mapGet "_" (reviveF r fs) = some (revive r jv) := by
            rw [mapGet_reviveF, hm]
            rfl
          by_cases hjs : ∃ id, jv = .str id
          · obtain ⟨id, rfl⟩ := hjs
            have hnone : lookupDescriptor r id = none := by
              have h1 := hu.1
              rw [hm] at h1
              simpa [Option.isNone_iff_eq_none] using h1
            have hgid : mapGet "_" (reviveF r fs) = some (.str id) := hgv
            rw [revive_obj_unknown r fs id hgid hnone, hF]
            rfl
          · have hnotstr : ∀ s, jv ≠ .str s := fun s hcon => hjs ⟨s, hcon⟩
            have hns : ∀ s, mapGet "_" (reviveF r fs) ≠ some (.str s) := by
              intro s hcon
              rw [hgv] at hcon
              exact revive_not_str r jv hnotstr s (Option.some_inj.mp hcon)
            rw [revive_obj_nostr r fs hns, hF]
            rfl
    · intro r js hsz hu
      cases js with
      | nil => rfl
      | cons y ys =>
        simp only [jsizeL] at hsz
        simp only [untaggedL, Bool.and_eq_true] at hu
        have h1 := ihV r y (by omega) hu.1
        have h2 := ihL r ys (by omega) hu.2
        simp [reviveL, Serde.ofJsonL, h1, h2]
    · intro r fs hsz hu
      cases fs with
      | nil => rfl
      | cons kv t =>
        obtain ⟨k, v⟩ := kv
        simp only [jsizeF] at hsz
        simp only [untaggedF, Bool.and_eq_true] at hu
        have h1 := ihV r v (by omega) hu.1
        have h2 := ihF r t (by omega) hu.2
        simp [reviveF, Serde.ofJsonF, h1, h2]

theorem mem_reviveF (r : Registry) (fs : List (String × Json)) (kv : String × Json)
    (h : kv ∈ fs) : (kv.1, revive r kv.2) ∈ reviveF r fs := by
  induction fs with
  | nil => cases h
  | cons hd tl ih =>
    obtain ⟨k, v⟩ := hd
    rcases List.mem_cons.mp h with h | h
    · subst h
      simp [reviveF]
    · simp only [reviveF]
      exact List.mem_cons_of_mem _ (ih h)

theorem encodeF_keys (r : Registry) (fs : List (String × Serde)) :
    ∀ efs, encodeF r fs = .ok efs → efs.map Prod.fst = fs.map Prod.fst := by
  induction fs with
  | nil =>
    intro efs h
    simp only [encodeF] at h
    cases h
    rfl
  | cons hd tl ih =>
    intro efs h
    obtain ⟨k, v⟩ := hd
    simp only [encodeF] at h
    cases he : encodeSerde r v with
    | error e => rw [he] at h; exact Except.noConfusion h
    | ok j =>
      rw [he] at h
      cases ht : encodeF r tl with
      | error e => rw [ht] at h; exact Except.noConfusion h
      | ok efs' =>
        rw [ht] at h
        cases h
        simp [ih efs' ht]

theorem encodeF_forall2 (r : Registry) (fs : List (String × Serde)) :
    ∀ efs, encodeF r fs = .ok efs →
    List.Forall₂ (fun (ef : String × Json) (f : String × Serde) =>
      ef.1 = f.1 ∧ encodeSerde r f.2 = .ok ef.2) efs fs := by
  induction fs with
  | nil =>
    intro efs h
    simp only [encodeF] at h
    cases h
    exact List.Forall₂.nil
  | cons hd tl ih =>
    intro efs h
    obtain ⟨k, v⟩ := hd
    simp only [encodeF] at h
    cases he : encodeSerde r v with
    | error e => rw [he] at h; exact Except.noConfusion h
    | ok j =>
      rw [he] at h
      cases ht : encodeF r tl with
      | error e => rw [ht] at h; exact Except.noConfusion h
      | ok efs' =>
        rw [ht] at h
        cases h
        exact List.Forall₂.cons ⟨rfl, he⟩ (ih efs' ht)

theorem map_fst_filter_ne (l : List (String × Serde)) :
    (l.filter (fun kv => kv.1 ≠ "_")).map Prod.fst =
      (l.map Prod.fst).filter (fun k => k ≠ "_") := by
  induction l with
  | nil => rfl
  | cons hd tl ih =>
    obtain ⟨k, v⟩ := hd
    simp only [decide_not] at ih
    by_cases h : k = "_"
    · subst h
      simp [List.filter_cons, ih]
    · simp [List.filter_cons, h, ih]

theorem isArrayIdx_underscore : isArrayIdx "_" = false := by decide

theorem insIdx_perm {α : Type} (kv : String × α) (l : List (String × α)) :
    List.Perm (insIdx kv l) (kv :: l) := by
  induction l with
  | nil => exact List.Perm.refl _
  | cons kv2 t ih =>
    simp only [insIdx]
    split
    · exact (List.Perm.cons kv2 ih).trans (List.Perm.swap kv kv2 t)
    · exact List.Perm.refl _

theorem sortIdx_perm {α : Type} (l : List (String × α)) : List.Perm (sortIdx l) l := by
  induction l with
  | nil => exact List.Perm.refl _
  | cons kv t ih => exact (insIdx_perm kv (sortIdx t)).trans (List.Perm.cons kv ih)

theorem insIdx_pairwise {α : Type} (kv : String × α) (l : List (String × α))
    (h : List.Pairwise (fun a b => arrayIdxVal a.1 ≤ arrayIdxVal b.1) l) :
    List.Pairwise (fun a b => arrayIdxVal a.1 ≤ arrayIdxVal b.1) (insIdx kv l) := by
  induction l with
  | nil => simp [insIdx]
  | cons kv2 t ih =>
    obtain ⟨h1, h2⟩ := List.pairwise_cons.mp h
    simp only [insIdx]
    split
    · rename_i hle
      apply List.pairwise_cons.mpr
      refine ⟨?_, ih h2⟩
      intro b hb
      rcases List.mem_cons.mp ((insIdx_perm kv t).mem_iff.mp hb) with rfl | hbt
      · exact hle
      · exact h1 b hbt
    · rename_i hnle
      have hlt : arrayIdxVal kv.1 ≤ arrayIdxVal kv2.1 := by omega
      apply List.pairwise_cons.mpr
      refine ⟨?_, h⟩
      intro b hb
      rcases List.mem_cons.mp hb with rfl | hbt
      · exact hlt
      · exact le_trans hlt (h1 b hbt)

theorem sortIdx_pairwise {α : Type} (l : List (String × α)) :
    List.Pairwise (fun a b => arrayIdxVal a.1 ≤ arrayIdxVal b.1) (sortIdx l) := by
  induction l with
  | nil => exact List.Pairwise.nil
  | cons kv t ih => exact insIdx_pairwise kv _ ih

/-- Enumeration reorders but neither adds, drops, nor rewrites a
binding. -/
theorem jsOrder_perm {α : Type} (l : List (String × α)) : List.Perm (jsOrder l) l := by
  unfold jsOrder
  exact ((sortIdx_perm _).append_right _).trans (List.filter_append_perm _ l)

theorem jsOrder_cons_nonIdx {α : Type} (k : String) (v : α) (l : List (String × α))
    (h : isArrayIdx k = false) :
    jsOrder ((k, v) :: l) =
      sortIdx (l.filter (fun kv => isArrayIdx kv.1)) ++
        (k, v) :: l.filter (fun kv => !isArrayIdx kv.1) := by
  unfold jsOrder
  rw [List.filter_cons, List.filter_cons]
  simp [h]

theorem jsOrder_eq_self_of_no_idx {α : Type} (l : List (String × α))
    (h : ∀ kv ∈ l, isArrayIdx kv.1 = false) : jsOrder l = l := by
  unfold jsOrder
  have h1 : l.filter (fun kv => isArrayIdx kv.1) = [] := by
    apply List.filter_eq_nil_iff.mpr
    intro a ha
    simp [h a ha]
  have h2 : l.filter (fun kv => !isArrayIdx kv.1) = l := by
    apply List.filter_eq_self.mpr
    intro a ha
    simp [h a ha]
  rw [h1, h2]
  rfl

theorem parse_printJson (r : Registry) (j : Json) (hjwf : jwf j = true) :
    Struct.parse r (printJson j) = .ok (revive r j) := by
  simp [Struct.parse, parseJsonText_print j hjwf]

/-! ## The claims -/

/-- C1: Round-trip identity and behavior preservation.  For every value
`v` built from the Serializable Value universe (well-formed keyed
collections, no reserved-key impostors) whose tagged values all have
coherently registered prototypes, `decode (encode v)` succeeds and
yields exactly `v` — the same dynamic type (prototype) and the same own
fields, recursively at arbitrary nesting depth inside sequences and
keyed collections — and therefore every operation invoked on the
round-tripped value returns the same result as on `v`. -/
theorem spec_C1 (r : Registry) (v : Serde) (h1 : swf v = true) (h2 : regOk r v = true) :
    ∃ s, Struct.stringify r v = .ok s ∧ Struct.parse r s = .ok v ∧
      ∀ (β : Type) (op : Serde → β), (Struct.parse r s).map op = .ok (op v) := by
  obtain ⟨s, hs, hp⟩ := stringify_parse_roundtrip r v h1 h2
  refine ⟨s, hs, hp, ?_⟩
  intro β op
  rw [hp]
  rfl

/-- Witness for C1: the demo's `Some` registered under its UUID, with
the nested value `Some(Some(Some(42)))` from the spec scenario. -/
theorem spec_C1_witness :
    swf (Serde.struct 7 [("v", Serde.struct 7 [("v", Serde.struct 7 [("v", Serde.num 42 0)])])]) =
      true ∧
    regOk (Struct.register Registry.empty 7 "a30deba3-479f-4d5c-a008-cefe9200884a")
      (Serde.struct 7 [("v", Serde.struct 7 [("v", Serde.struct 7 [("v", Serde.num 42 0)])])]) =
      true ∧
    ∃ s, Struct.stringify (Struct.register Registry.empty 7 "a30deba3-479f-4d5c-a008-cefe9200884a")
        (Serde.struct 7 [("v", Serde.struct 7 [("v", Serde.struct 7 [("v", Serde.num 42 0)])])]) =
        .ok s ∧
      Struct.parse (Struct.register Registry.empty 7 "a30deba3-479f-4d5c-a008-cefe9200884a") s =
        .ok (Serde.struct 7 [("v", Serde.struct 7 [("v", Serde.struct 7 [("v", Serde.num 42 0)])])]) ∧
      ∀ (β : Type) (op : Serde → β),
        (Struct.parse (Struct.register Registry.empty 7 "a30deba3-479f-4d5c-a008-cefe9200884a")
          s).map op =
        .ok (op (Serde.struct 7
          [("v", Serde.struct 7 [("v", Serde.struct 7 [("v", Serde.num 42 0)])])])) :=
  ⟨rfl, rfl,
    spec_C1 (Struct.register Registry.empty 7 "a30deba3-479f-4d5c-a008-cefe9200884a")
      (Serde.struct 7 [("v", Serde.struct 7 [("v", Serde.struct 7 [("v", Serde.num 42 0)])])])
      rfl rfl⟩

/-- C4: Malformed input.  For every input text on which the textual
parser fails, decode raises Malformed Input immediately with no
partial result; for every syntactically valid text decode returns a
full result (the reviver itself cannot fail: decode is all-or-nothing
per call), and Malformed Input is the only decode-time error. -/
theorem spec_C4 (r : Registry) (s : String) :
    (parseJsonText s = none → Struct.parse r s = .error .malformedInput) ∧
    (∀ j, parseJsonText s = some j → Struct.parse r s = .ok (revive r j)) ∧
    (∀ e, Struct.parse r s = .error e → e = .malformedInput) := by
  refine ⟨?_, ?_, ?_⟩
  · intro h
    simp [Struct.parse, h]
  · intro j h
    simp [Struct.parse, h]
  · intro e _
    cases e
    rfl

/-- Witness for C4: the unterminated text `[1,` is malformed and decode
reports exactly the Malformed Input error. -/
theorem spec_C4_witness :
    parseJsonText "[1," = none ∧
    Struct.parse Registry.empty "[1," = .error .malformedInput :=
  ⟨rfl, (spec_C4 Registry.empty "[1,").1 rfl⟩

/-- C7: `register` associates descriptor and identifier in both
directions; registering the same pair twice leaves the registry in the
same state as registering it once; a second registration with a
different identifier for the same descriptor, or a different
descriptor for the same identifier, silently overwrites so that the
last registration wins on the respective lookup side; `register` is a
total function with no failure mode. -/
theorem spec_C7 (r : Registry) (d d2 : Proto) (id id2 : UUID) :
    (lookupDescriptor (Struct.register r d id) id = some d ∧
      lookupIdentifier (Struct.register r d id) d = some id) ∧
    Struct.register (Struct.register r d id) d id = Struct.register r d id ∧
    lookupIdentifier (Struct.register (Struct.register r d id) d id2) d = some id2 ∧
    lookupDescriptor (Struct.register (Struct.register r d id) d2 id) id = some d2 := by
  refine ⟨⟨?_, ?_⟩, ?_, ?_, ?_⟩
  · exact mapGet_set_self id d r.ID_TO_PROTO
  · exact mapGet_set_self d id r.PROTO_TO_ID
  · simp [Struct.register, mapSet_idem]
  · exact mapGet_set_self d id2 _
  · exact mapGet_set_self id d2 _

/-- C8: Primitive pass-through.  Absence-markers, booleans, numbers
(including the safe-integer bounds `±(2^53 - 1)` and fractional
values), and text (every string, hence also control characters,
quotes, backslashes, and non-ASCII) decode to themselves through the
full textual pipeline under any registry, and empty sequences and
empty keyed collections decode to empty containers, not
absence-markers. -/
theorem spec_C8 (r : Registry) :
    Struct.parse r (printJson .null) = .ok .null ∧
    (∀ b, Struct.parse r (printJson (.bool b)) = .ok (.bool b)) ∧
    (∀ m e, Struct.parse r (printJson (.num m e)) = .ok (.num m e)) ∧
    (∀ s, Struct.parse r (printJson (.str s)) = .ok (.str s)) ∧
    Struct.parse r (printJson (.num 9007199254740991 0)) = .ok (.num 9007199254740991 0) ∧
    Struct.parse r (printJson (.num (-9007199254740991) 0)) =
      .ok (.num (-9007199254740991) 0) ∧
    Struct.parse r (printJson (.arr [])) = .ok (.arr []) ∧
    Struct.parse r (printJson (.obj [])) = .ok (.obj []) ∧
    Serde.arr [] ≠ Serde.null ∧ Serde.obj [] ≠ Serde.null := by
  refine ⟨?_, ?_, ?_, ?_, ?_, ?_, ?_, ?_, ?_, ?_⟩
  · exact parse_printJson r .null rfl
  · intro b
    cases b <;> exact parse_printJson r _ rfl
  · intro m e
    exact parse_printJson r (.num m e) rfl
  · intro s
    exact parse_printJson r (.str s) rfl
  · exact parse_printJson r _ rfl
  · exact parse_printJson r _ rfl
  · exact parse_printJson r (.arr []) rfl
  · exact parse_printJson r (.obj []) rfl
  · intro h
    exact Serde.noConfusion h
  · intro h
    exact Serde.noConfusion h

/-- C3: Unregistered Type is the only encode-time error.  Encoding a
tagged value whose own runtime type has no `PROTO_TO_ID` entry fails
with Unregistered Type and produces no output (the call returns the
error alone); when every tagged value inside is registered, encode
succeeds, so the error branch is never taken for registered types; and
any error encode ever returns is Unregistered Type. -/
theorem spec_C3 (r : Registry) (v : Serde) :
    (∀ p fsS, v = .struct p fsS → lookupIdentifier r p = none →
      Struct.stringify r v = .error .unregisteredType) ∧
    (protosReg r v = true → ∃ s, Struct.stringify r v = .ok s) ∧
    (∀ e, Struct.stringify r v = .error e → e = .unregisteredType) := by
  refine ⟨?_, ?_, ?_⟩
  · rintro p fsS rfl h
    simp only [Struct.stringify, encodeSerde, h]
    rfl
  · intro h
    obtain ⟨j, hj⟩ := (encodeTotal (ssize v)).1 r v le_rfl h
    refine ⟨printJson j, ?_⟩
    simp only [Struct.stringify, hj]
    rfl
  · intro e _
    cases e
    rfl

/-- Witness for C3: encoding a value of an unregistered prototype on
the empty registry fails; after registration, encoding succeeds. -/
theorem spec_C3_witness :
    Struct.stringify Registry.empty (.struct 3 []) = .error .unregisteredType ∧
    ∃ s, Struct.stringify (Struct.register Registry.empty 7
      "a30deba3-479f-4d5c-a008-cefe9200884a") (.struct 7 [("v", Serde.num 42 0)]) = .ok s :=
  ⟨(spec_C3 Registry.empty (.struct 3 [])).1 3 [] rfl rfl,
    (spec_C3 (Struct.register Registry.empty 7 "a30deba3-479f-4d5c-a008-cefe9200884a")
      (.struct 7 [("v", Serde.num 42 0)])).2.1 rfl⟩

/-- Counterexample to C6 as stated: encode order is not "reserved key
first".  `toJSON()` does insert the reserved binding first, but the
serializer emits the resulting object's own properties in enumeration
order, which places array-index keys ahead of all other string keys —
so for a registered value with an own field named `"0"` the emitted
document starts with that field, not with the reserved key. -/
theorem spec_C6_counterexample :
    Struct.toJSON (Struct.register Registry.empty 7
      "a30deba3-479f-4d5c-a008-cefe9200884a") 7
      [("0", Json.num 1 0), ("a", Json.num 2 0)] =
      .ok [("0", Json.num 1 0),
        ("_", Json.str "a30deba3-479f-4d5c-a008-cefe9200884a"),
        ("a", Json.num 2 0)] ∧
    [("0", Json.num 1 0), ("_", Json.str "a30deba3-479f-4d5c-a008-cefe9200884a"),
      ("a", Json.num 2 0)].head? = some ("0", Json.num 1 0) ∧
    ("0" : String) ≠ "_" :=
  ⟨rfl, rfl, by decide⟩

/-- C6 (amended): Encode shape and order.  Encoding a tagged value of a
registered type whose own fields encode successfully produces a keyed
document containing the reserved identifier key plus every own
enumerable field under its original key, each value encoded
recursively by the same encoder; the stable encode order is the
platform's own-property enumeration of the `toJSON()` result: own
fields with array-index keys first in ascending numeric order, then
the reserved key, then the remaining own fields in the value's
own-field enumeration order — so the reserved key comes first exactly
in the common case that no own field is named by an array index. -/
theorem spec_C6 (r : Registry) (p : Proto) (fs : List (String × Serde)) (id : UUID)
    (efs : List (String × Json)) (h1 : lookupIdentifier r p = some id)
    (h2 : encodeF r fs = .ok efs) (h3 : "_" ∉ fs.map Prod.fst) (h4 : nodupKeysS fs = true) :
    Struct.toJSON r p efs =
      .ok (sortIdx (efs.filter (fun kv => isArrayIdx kv.1)) ++
        ("_", Json.str id) :: efs.filter (fun kv => !isArrayIdx kv.1)) ∧
    List.Pairwise (fun a b => arrayIdxVal a.1 ≤ arrayIdxVal b.1)
      (sortIdx (efs.filter (fun kv => isArrayIdx kv.1))) ∧
    List.Perm
      (sortIdx (efs.filter (fun kv => isArrayIdx kv.1)) ++
        ("_", Json.str id) :: efs.filter (fun kv => !isArrayIdx kv.1))
      (("_", Json.str id) :: efs) ∧
    List.Forall₂ (fun (ef : String × Json) (f : String × Serde) =>
      ef.1 = f.1 ∧ encodeSerde r f.2 = .ok ef.2) efs fs ∧
    ((∀ kv ∈ efs, isArrayIdx kv.1 = false) →
      Struct.toJSON r p efs = .ok (("_", Json.str id) :: efs)) := by
  have hkeys := encodeF_keys r fs efs h2
  have hnotmemE : "_" ∉ efs.map Prod.fst := by
    rw [hkeys]
    exact h3
  have hndE : nodupKeysJ efs = true := by
    rw [nodupKeysJ_of_keys_eq efs fs hkeys]
    exact h4
  have hset : mapSetAll [("_", Json.str id)] efs = ("_", Json.str id) :: efs := by
    rw [mapSetAll_append_of_disjoint efs [("_", Json.str id)] ?_ hndE]
    · rfl
    · intro kv hkv
      simp only [List.map_cons, List.map_nil, List.mem_singleton]
      intro hcon
      exact hnotmemE (hcon ▸ List.mem_map_of_mem Prod.fst hkv)
  have hdoc : Struct.toJSON r p efs = .ok (jsOrder (("_", Json.str id) :: efs)) := by
    simp only [Struct.toJSON, h1, hset]
  refine ⟨?_, sortIdx_pairwise _, ?_, encodeF_forall2 r fs efs h2, ?_⟩
  · rw [hdoc, jsOrder_cons_nonIdx "_" (Json.str id) efs isArrayIdx_underscore]
  · rw [← jsOrder_cons_nonIdx "_" (Json.str id) efs isArrayIdx_underscore]
    exact jsOrder_perm (("_", Json.str id) :: efs)
  · intro hno
    rw [hdoc, jsOrder_eq_self_of_no_idx (("_", Json.str id) :: efs) ?_]
    intro kv hkv
    rcases List.mem_cons.mp hkv with rfl | hkv2
    · exact isArrayIdx_underscore
    · exact hno kv hkv2

/-- Witness for C6 (amended): encoding a value owning fields `"0"` and
`"a"` — the emitted document is the array-index field, then the
reserved key, then the string-keyed field. -/
theorem spec_C6_witness :
    lookupIdentifier (Struct.register Registry.empty 7
      "a30deba3-479f-4d5c-a008-cefe9200884a") 7 =
      some "a30deba3-479f-4d5c-a008-cefe9200884a" ∧
    encodeF (Struct.register Registry.empty 7 "a30deba3-479f-4d5c-a008-cefe9200884a")
      [("0", Serde.num 1 0), ("a", Serde.num 2 0)] =
      .ok [("0", Json.num 1 0), ("a", Json.num 2 0)] ∧
    "_" ∉ ([("0", Serde.num 1 0), ("a", Serde.num 2 0)].map Prod.fst) ∧
    nodupKeysS [("0", Serde.num 1 0), ("a", Serde.num 2 0)] = true ∧
    (Struct.toJSON (Struct.register Registry.empty 7
        "a30deba3-479f-4d5c-a008-cefe9200884a") 7
        [("0", Json.num 1 0), ("a", Json.num 2 0)] =
      .ok (sortIdx ([("0", Json.num 1 0), ("a", Json.num 2 0)].filter
          (fun kv => isArrayIdx kv.1)) ++
        ("_", Json.str "a30deba3-479f-4d5c-a008-cefe9200884a") ::
          [("0", Json.num 1 0), ("a", Json.num 2 0)].filter
            (fun kv => !isArrayIdx kv.1)) ∧
      List.Pairwise (fun a b => arrayIdxVal a.1 ≤ arrayIdxVal b.1)
        (sortIdx ([("0", Json.num 1 0), ("a", Json.num 2 0)].filter
          (fun kv => isArrayIdx kv.1))) ∧
      List.Perm
        (sortIdx ([("0", Json.num 1 0), ("a", Json.num 2 0)].filter
            (fun kv => isArrayIdx kv.1)) ++
          ("_", Json.str "a30deba3-479f-4d5c-a008-cefe9200884a") ::
            [("0", Json.num 1 0), ("a", Json.num 2 0)].filter
              (fun kv => !isArrayIdx kv.1))
        (("_", Json.str "a30deba3-479f-4d5c-a008-cefe9200884a") ::
          [("0", Json.num 1 0), ("a", Json.num 2 0)]) ∧
      List.Forall₂ (fun (ef : String × Json) (f : String × Serde) =>
        ef.1 = f.1 ∧ encodeSerde (Struct.register Registry.empty 7
          "a30deba3-479f-4d5c-a008-cefe9200884a") f.2 = .ok ef.2)
        [("0", Json.num 1 0), ("a", Json.num 2 0)]
        [("0", Serde.num 1 0), ("a", Serde.num 2 0)] ∧
      ((∀ kv ∈ [("0", Json.num 1 0), ("a", Json.num 2 0)], isArrayIdx kv.1 = false) →
        Struct.toJSON (Struct.register Registry.empty 7
          "a30deba3-479f-4d5c-a008-cefe9200884a") 7
          [("0", Json.num 1 0), ("a", Json.num 2 0)] =
        .ok (("_", Json.str "a30deba3-479f-4d5c-a008-cefe9200884a") ::
          [("0", Json.num 1 0), ("a", Json.num 2 0)]))) :=
  ⟨rfl, rfl, by decide, rfl,
    spec_C6 (Struct.register Registry.empty 7 "a30deba3-479f-4d5c-a008-cefe9200884a")
      7 [("0", Serde.num 1 0), ("a", Serde.num 2 0)]
      "a30deba3-479f-4d5c-a008-cefe9200884a"
      [("0", Json.num 1 0), ("a", Json.num 2 0)] rfl rfl (by decide) rfl⟩

/-- C9: After `register(d, id1)` then `register(d, id2)` with distinct
identifiers, the identifier-to-descriptor side still holds the old
entry: `id1` still resolves to `d`, and decoding a document tagged
`id1` still hydrates the node to `d`'s behavior, while encoding a
value of `d`'s type now emits `id2` — only the descriptor-to-identifier
side was overwritten. -/
theorem spec_C9 (r : Registry) (d : Proto) (id1 id2 : UUID) (fs : List (String × Json))
    (hne : id1 ≠ id2) (hfk : "_" ∉ fs.map Prod.fst) :
    lookupDescriptor (Struct.register (Struct.register r d id1) d id2) id1 = some d ∧
    revive (Struct.register (Struct.register r d id1) d id2)
      (.obj (("_", .str id1) :: fs)) =
      .struct d (reviveF (Struct.register (Struct.register r d id1) d id2) fs) ∧
    lookupIdentifier (Struct.register (Struct.register r d id1) d id2) d = some id2 ∧
    encodeSerde (Struct.register (Struct.register r d id1) d id2) (.struct d []) =
      .ok (.obj [("_", .str id2)]) := by
  set r2 := Struct.register (Struct.register r d id1) d id2 with hr2
  have hlook1 : lookupDescriptor r2 id1 = some d := by
    show mapGet id1 (mapSet id2 d (mapSet id1 d r.ID_TO_PROTO)) = some d
    rw [mapGet_set_ne id2 id1 d _ hne]
    exact mapGet_set_self id1 d _
  have hlookI : lookupIdentifier r2 d = some id2 := mapGet_set_self d id2 _
  refine ⟨hlook1, ?_, hlookI, ?_⟩
  · have hmg : mapGet "_" (reviveF r2 (("_", Json.str id1) :: fs)) = some (.str id1) := by
      simp [reviveF, mapGet, revive]
    rw [revive_obj_found r2 _ id1 d hmg hlook1]
    have hfil : (reviveF r2 (("_", Json.str id1) :: fs)).filter (fun kv => kv.1 ≠ "_") =
        reviveF r2 fs := by
      show ((("_", revive r2 (Json.str id1)) :: reviveF r2 fs).filter
        (fun kv => kv.1 ≠ "_")) = reviveF r2 fs
      rw [List.filter_cons]
      rw [if_neg (by simp)]
      apply filter_ne_underscore_of_not_mem
      rw [reviveF_keys]
      exact hfk
    rw [hfil]
  · simp only [encodeSerde, hlookI]
    rfl

/-- Witness for C9: re-registering prototype `7` under a second UUID. -/
theorem spec_C9_witness :
    ("id-aaaa-1-1-1" : UUID) ≠ "id-bbbb-2-2-2" ∧
    "_" ∉ ([("v", Json.num 1 0)].map Prod.fst) ∧
    (lookupDescriptor (Struct.register (Struct.register Registry.empty 7 "id-aaaa-1-1-1") 7
        "id-bbbb-2-2-2") "id-aaaa-1-1-1" = some 7 ∧
      revive (Struct.register (Struct.register Registry.empty 7 "id-aaaa-1-1-1") 7
        "id-bbbb-2-2-2") (.obj [("_", .str "id-aaaa-1-1-1"), ("v", Json.num 1 0)]) =
        .struct 7 (reviveF (Struct.register (Struct.register Registry.empty 7 "id-aaaa-1-1-1") 7
          "id-bbbb-2-2-2") [("v", Json.num 1 0)]) ∧
      lookupIdentifier (Struct.register (Struct.register Registry.empty 7 "id-aaaa-1-1-1") 7
        "id-bbbb-2-2-2") 7 = some "id-bbbb-2-2-2" ∧
      encodeSerde (Struct.register (Struct.register Registry.empty 7 "id-aaaa-1-1-1") 7
        "id-bbbb-2-2-2") (.struct 7 []) = .ok (.obj [("_", .str "id-bbbb-2-2-2")])) :=
  ⟨by decide, by decide,
    spec_C9 Registry.empty 7 "id-aaaa-1-1-1" "id-bbbb-2-2-2" [("v", Json.num 1 0)]
      (by decide) (by decide)⟩

/-- C10: Decode reattaches behavior in place without running any
constructor: when the reviver hydrates a node, the reconstructed
value's own fields are exactly the document's non-reserved fields
(same keys in document order, each value the recursive decode of the
document's value) — no field defaults or initialization logic
materialize anything else.  In particular a document missing a field
the constructor would always set yields a value without that field. -/
theorem spec_C10 (r : Registry) (fs : List (String × Json)) (id : UUID) (p : Proto)
    (h1 : mapGet "_" (reviveF r fs) = some (.str id))
    (h2 : lookupDescriptor r id = some p) :
    ∃ out, revive r (.obj fs) = .struct p out ∧
      out.map Prod.fst = (fs.map Prod.fst).filter (fun k => k ≠ "_") ∧
      ∀ kv ∈ fs, kv.1 ≠ "_" → (kv.1, revive r kv.2) ∈ out := by
  refine ⟨(reviveF r fs).filter (fun kv => kv.1 ≠ "_"),
    revive_obj_found r fs id p h1 h2, ?_, ?_⟩
  · rw [map_fst_filter_ne, reviveF_keys]
  · intro kv hkv hne
    apply List.mem_filter.mpr
    exact ⟨mem_reviveF r fs kv hkv, by simpa using hne⟩

/-- Witness for C10: a document carrying only the reserved key (the
demo's `Some` constructor always sets `v`) hydrates to a value with no
fields at all — the constructor did not run. -/
theorem spec_C10_witness :
    mapGet "_" (reviveF (Struct.register Registry.empty 7
      "a30deba3-479f-4d5c-a008-cefe9200884a") [("_", Json.str
      "a30deba3-479f-4d5c-a008-cefe9200884a")]) =
      some (.str "a30deba3-479f-4d5c-a008-cefe9200884a") ∧
    lookupDescriptor (Struct.register Registry.empty 7
      "a30deba3-479f-4d5c-a008-cefe9200884a") "a30deba3-479f-4d5c-a008-cefe9200884a" =
      some 7 ∧
    ∃ out, revive (Struct.register Registry.empty 7 "a30deba3-479f-4d5c-a008-cefe9200884a")
        (.obj [("_", Json.str "a30deba3-479f-4d5c-a008-cefe9200884a")]) = .struct 7 out ∧
      out.map Prod.fst = ([("_", Json.str "a30deba3-479f-4d5c-a008-cefe9200884a")].map
        Prod.fst).filter (fun k => k ≠ "_") ∧
      ∀ kv ∈ [("_", Json.str "a30deba3-479f-4d5c-a008-cefe9200884a")], kv.1 ≠ "_" →
        (kv.1, revive (Struct.register Registry.empty 7
          "a30deba3-479f-4d5c-a008-cefe9200884a") kv.2) ∈ out :=
  ⟨rfl, rfl,
    spec_C10 (Struct.register Registry.empty 7 "a30deba3-479f-4d5c-a008-cefe9200884a")
      [("_", Json.str "a30deba3-479f-4d5c-a008-cefe9200884a")]
      "a30deba3-479f-4d5c-a008-cefe9200884a" 7 rfl rfl⟩

/-- Counterexample to C2 as stated: decode does leave the unknown-id
node itself a keyed collection with the reserved key intact, but a
field holding a registered tagged document is not "unchanged" — it is
hydrated (prototype attached, its own reserved key removed) by the
bottom-up walk before the unknown-id node is considered. -/
theorem spec_C2_counterexample :
    Struct.parse (Struct.register Registry.empty 7 "a30deba3-479f-4d5c-a008-cefe9200884a")
      "\x7b\"_\":\"unknown-1-1-1-1\",\"x\":\x7b\"_\":\"a30deba3-479f-4d5c-a008-cefe9200884a\",\"v\":1\x7d\x7d" =
      .ok (.obj [("_", .str "unknown-1-1-1-1"), ("x", .struct 7 [("v", Serde.num 1 0)])]) ∧
    Serde.struct 7 [("v", Serde.num 1 0)] ≠
      Serde.obj [("_", Serde.str "a30deba3-479f-4d5c-a008-cefe9200884a"),
        ("v", Serde.num 1 0)] :=
  ⟨rfl, fun h => Serde.noConfusion h⟩

/-- C2 (amended): For every decode input whose keyed-collection node
carries the reserved key with an identifier absent from the registry,
decode does not fail and leaves that node an ordinary keyed collection
— reserved key present and unremoved, no type's behavior attached —
with every other field the result of the recursive decode of that
field (hence literally unchanged whenever the field contains no
registered identifier). -/
theorem spec_C2 (r : Registry) (fs : List (String × Json)) (id : UUID)
    (h1 : mapGet "_" (reviveF r fs) = some (.str id))
    (h2 : lookupDescriptor r id = none) :
    revive r (.obj fs) = .obj (reviveF r fs) ∧
    mapGet "_" (reviveF r fs) = some (.str id) ∧
    (reviveF r fs).map Prod.fst = fs.map Prod.fst ∧
    (∀ kv ∈ fs, untagged r kv.2 = true → (kv.1, Serde.ofJson kv.2) ∈ reviveF r fs) ∧
    (∀ p flds, revive r (.obj fs) ≠ .struct p flds) := by
  have hobj := revive_obj_unknown r fs id h1 h2
  refine ⟨hobj, h1, reviveF_keys r fs, ?_, ?_⟩
  · intro kv hkv hu
    have hmem := mem_reviveF r fs kv hkv
    rwa [(revive_untagged (jsize kv.2)).1 r kv.2 le_rfl hu] at hmem
  · intro p flds hcon
    rw [hobj] at hcon
    exact Serde.noConfusion hcon

/-- Witness for C2 (amended): a document tagged with an unregistered
identifier and one plain field. -/
theorem spec_C2_witness :
    mapGet "_" (reviveF (Struct.register Registry.empty 7
      "a30deba3-479f-4d5c-a008-cefe9200884a")
      [("_", Json.str "unknown-1-1-1-1"), ("a", Json.num 5 0)]) =
      some (.str "unknown-1-1-1-1") ∧
    lookupDescriptor (Struct.register Registry.empty 7
      "a30deba3-479f-4d5c-a008-cefe9200884a") "unknown-1-1-1-1" = none ∧
    (revive (Struct.register Registry.empty 7 "a30deba3-479f-4d5c-a008-cefe9200884a")
        (.obj [("_", Json.str "unknown-1-1-1-1"), ("a", Json.num 5 0)]) =
      .obj (reviveF (Struct.register Registry.empty 7
        "a30deba3-479f-4d5c-a008-cefe9200884a")
        [("_", Json.str "unknown-1-1-1-1"), ("a", Json.num 5 0)]) ∧
      mapGet "_" (reviveF (Struct.register Registry.empty 7
        "a30deba3-479f-4d5c-a008-cefe9200884a")
        [("_", Json.str "unknown-1-1-1-1"), ("a", Json.num 5 0)]) =
        some (.str "unknown-1-1-1-1") ∧
      (reviveF (Struct.register Registry.empty 7 "a30deba3-479f-4d5c-a008-cefe9200884a")
        [("_", Json.str "unknown-1-1-1-1"), ("a", Json.num 5 0)]).map Prod.fst =
        ([("_", Json.str "unknown-1-1-1-1"), ("a", Json.num 5 0)]).map Prod.fst ∧
      (∀ kv ∈ [("_", Json.str "unknown-1-1-1-1"), ("a", Json.num 5 0)],
        untagged (Struct.register Registry.empty 7
          "a30deba3-479f-4d5c-a008-cefe9200884a") kv.2 = true →
        (kv.1, Serde.ofJson kv.2) ∈ reviveF (Struct.register Registry.empty 7
          "a30deba3-479f-4d5c-a008-cefe9200884a")
          [("_", Json.str "unknown-1-1-1-1"), ("a", Json.num 5 0)]) ∧
      (∀ p flds, revive (Struct.register Registry.empty 7
        "a30deba3-479f-4d5c-a008-cefe9200884a")
        (.obj [("_", Json.str "unknown-1-1-1-1"), ("a", Json.num 5 0)]) ≠
        .struct p flds)) :=
  ⟨rfl, rfl,
    spec_C2 (Struct.register Registry.empty 7 "a30deba3-479f-4d5c-a008-cefe9200884a")
      [("_", Json.str "unknown-1-1-1-1"), ("a", Json.num 5 0)] "unknown-1-1-1-1" rfl rfl⟩

/-- Counterexample to C5 as stated: after `register(d, "id-aaaa-1-1-1")`
followed by `register(d, "id-bbbb-2-2-2")` (an accepted registry state
per the duplicate-registration policy), decoding a document tagged
with the old identifier hydrates it to `d`, but the dedicated accessor
returns the identifier most recently registered for `d` — not the
identifier that was in the document. -/
theorem spec_C5_counterexample :
    Struct.parse (Struct.register (Struct.register Registry.empty 7 "id-aaaa-1-1-1") 7
      "id-bbbb-2-2-2") "\x7b\"_\":\"id-aaaa-1-1-1\"\x7d" = .ok (.struct 7 []) ∧
    getUnderscore (Struct.register (Struct.register Registry.empty 7 "id-aaaa-1-1-1") 7
      "id-bbbb-2-2-2") (.struct 7 []) = some "id-bbbb-2-2-2" ∧
    some ("id-bbbb-2-2-2" : UUID) ≠ some ("id-aaaa-1-1-1" : UUID) :=
  ⟨rfl, rfl, by decide⟩

/-- C5 (amended): After decode restores a value, the reserved key is
absent from the value's own-field enumeration but remains retrievable
through the dedicated accessor; the accessor returns the identifier
currently registered for the restored prototype, which equals the
identifier that was in the document whenever the registry still maps
the prototype to that identifier (in particular whenever each type was
registered exactly once). -/
theorem spec_C5 (r : Registry) (fs : List (String × Json)) (id : UUID) (p : Proto)
    (h1 : mapGet "_" (reviveF r fs) = some (.str id))
    (h2 : lookupDescriptor r id = some p) :
    revive r (.obj fs) = .struct p ((reviveF r fs).filter (fun kv => kv.1 ≠ "_")) ∧
    "_" ∉ ((reviveF r fs).filter (fun kv => kv.1 ≠ "_")).map Prod.fst ∧
    getUnderscore r (revive r (.obj fs)) = lookupIdentifier r p ∧
    (lookupIdentifier r p = some id → getUnderscore r (revive r (.obj fs)) = some id) := by
  have hfound := revive_obj_found r fs id p h1 h2
  refine ⟨hfound, keys_filter_ne_underscore _, ?_, ?_⟩
  · rw [hfound]
    rfl
  · intro h
    rw [hfound]
    exact h

/-- Witness for C5 (amended): a coherent single registration, where the
accessor recovers exactly the document's identifier. -/
theorem spec_C5_witness :
    mapGet "_" (reviveF (Struct.register Registry.empty 7
      "a30deba3-479f-4d5c-a008-cefe9200884a")
      [("_", Json.str "a30deba3-479f-4d5c-a008-cefe9200884a"), ("v", Json.num 2 0)]) =
      some (.str "a30deba3-479f-4d5c-a008-cefe9200884a") ∧
    lookupDescriptor (Struct.register Registry.empty 7
      "a30deba3-479f-4d5c-a008-cefe9200884a") "a30deba3-479f-4d5c-a008-cefe9200884a" =
      some 7 ∧
    (revive (Struct.register Registry.empty 7 "a30deba3-479f-4d5c-a008-cefe9200884a")
        (.obj [("_", Json.str "a30deba3-479f-4d5c-a008-cefe9200884a"),
          ("v", Json.num 2 0)]) =
      .struct 7 ((reviveF (Struct.register Registry.empty 7
        "a30deba3-479f-4d5c-a008-cefe9200884a")
        [("_", Json.str "a30deba3-479f-4d5c-a008-cefe9200884a"),
          ("v", Json.num 2 0)]).filter (fun kv => kv.1 ≠ "_")) ∧
      "_" ∉ ((reviveF (Struct.register Registry.empty 7
        "a30deba3-479f-4d5c-a008-cefe9200884a")
        [("_", Json.str "a30deba3-479f-4d5c-a008-cefe9200884a"),
          ("v", Json.num 2 0)]).filter (fun kv => kv.1 ≠ "_")).map Prod.fst ∧
      getUnderscore (Struct.register Registry.empty 7
        "a30deba3-479f-4d5c-a008-cefe9200884a")
        (revive (Struct.register Registry.empty 7 "a30deba3-479f-4d5c-a008-cefe9200884a")
          (.obj [("_", Json.str "a30deba3-479f-4d5c-a008-cefe9200884a"),
            ("v", Json.num 2 0)])) =
        lookupIdentifier (Struct.register Registry.empty 7
          "a30deba3-479f-4d5c-a008-cefe9200884a") 7 ∧
      (lookupIdentifier (Struct.register Registry.empty 7
        "a30deba3-479f-4d5c-a008-cefe9200884a") 7 =
        some "a30deba3-479f-4d5c-a008-cefe9200884a" →
        getUnderscore (Struct.register Registry.empty 7
          "a30deba3-479f-4d5c-a008-cefe9200884a")
          (revive (Struct.register Registry.empty 7
            "a30deba3-479f-4d5c-a008-cefe9200884a")
            (.obj [("_", Json.str "a30deba3-479f-4d5c-a008-cefe9200884a"),
              ("v", Json.num 2 0)])) =
          some "a30deba3-479f-4d5c-a008-cefe9200884a")) :=
  ⟨rfl, rfl,
    spec_C5 (Struct.register Registry.empty 7 "a30deba3-479f-4d5c-a008-cefe9200884a")
      [("_", Json.str "a30deba3-479f-4d5c-a008-cefe9200884a"), ("v", Json.num 2 0)]
      "a30deba3-479f-4d5c-a008-cefe9200884a" 7 rfl rfl⟩
